import Mathlib

/-!
Verification of the impedance-tensor core of the mtpy repository
(`mtpy/core/z.py`): a shallow embedding of the `Z` (impedance tensor) and
`Tipper` classes, their constructors, property setters, derived-quantity
computations and tensor operations, together with theorems settling the
frozen claims about this code.

Numeric values are modelled over the exact reals/complexes; numpy arrays of
shape `(n, 2, 2)` become `List (Mat2 _)`, arrays of shape `(n, 1, 2)` become
`List (Vec2 _)`.  Python exceptions are modelled explicitly: mutating methods
return the (possibly partially mutated) state together with an optional raised
error; non-mutating methods return `Except`.
-/

noncomputable section

namespace Mtpy

/-- A `(2, 2)` slice of a numpy array. `xx`/`xy`/`yx`/`yy` are the
`(0,0)`, `(0,1)`, `(1,0)`, `(1,1)` entries. -/
structure Mat2 (α : Type) where
  xx : α
  xy : α
  yx : α
  yy : α
deriving DecidableEq

/-- A `(1, 2)` slice of a numpy array: a tipper row `[Tx, Ty]`. -/
structure Vec2 (α : Type) where
  tx : α
  ty : α
deriving DecidableEq

/-- Entry access `M[i, j]`. -/
def Mat2.get {α : Type} (M : Mat2 α) (i j : Fin 2) : α :=
  if i = 0 then (if j = 0 then M.xx else M.xy) else (if j = 0 then M.yx else M.yy)

/-- Build a matrix from an entry function. -/
def Mat2.ofFn {α : Type} (f : Fin 2 → Fin 2 → α) : Mat2 α :=
  ⟨f 0 0, f 0 1, f 1 0, f 1 1⟩

/-- Elementwise map (numpy elementwise ufunc application). -/
def Mat2.map {α β : Type} (f : α → β) (M : Mat2 α) : Mat2 β :=
  ⟨f M.xx, f M.xy, f M.yx, f M.yy⟩

/-- 2x2 matrix product. -/
def Mat2.mul {α : Type} [Mul α] [Add α] (A B : Mat2 α) : Mat2 α :=
  ⟨A.xx * B.xx + A.xy * B.yx, A.xx * B.xy + A.xy * B.yy,
   A.yx * B.xx + A.yy * B.yx, A.yx * B.xy + A.yy * B.yy⟩

/-- Matrix transpose. -/
def Mat2.transpose {α : Type} (A : Mat2 α) : Mat2 α :=
  ⟨A.xx, A.yx, A.xy, A.yy⟩

/-- Embed a real matrix into the complexes. -/
def Mat2.toC (A : Mat2 ℝ) : Mat2 ℂ :=
  Mat2.map (fun x : ℝ => (x : ℂ)) A

/-- Determinant of a real 2x2 matrix. -/
def Mat2.det2 (M : Mat2 ℝ) : ℝ :=
  M.xx * M.yy - M.xy * M.yx

/-- Analytic inverse of a real 2x2 matrix (`np.matrix.I` on a nonsingular input). -/
def Mat2.inv2 (M : Mat2 ℝ) : Mat2 ℝ :=
  ⟨M.yy / M.det2, -M.xy / M.det2, -M.yx / M.det2, M.xx / M.det2⟩

def mat0C : Mat2 ℂ := ⟨0, 0, 0, 0⟩
def mat0R : Mat2 ℝ := ⟨0, 0, 0, 0⟩
def vec0C : Vec2 ℂ := ⟨0, 0⟩
def vec0R : Vec2 ℝ := ⟨0, 0⟩

/-- Identity 2x2 matrix. -/
def matIdR : Mat2 ℝ := ⟨1, 0, 0, 1⟩

/-- Python float `%`: `a - b * floor (a / b)` (sign of the divisor). -/
def fmod (a b : ℝ) : ℝ := a - b * ((⌊a / b⌋ : ℤ) : ℝ)

/-- `math.degrees` / `np.rad2deg`. -/
def degrees (x : ℝ) : ℝ := x * 180 / Real.pi

/-- `np.radians` / `math.radians`. -/
def radians (x : ℝ) : ℝ := x * Real.pi / 180

/-- Two-argument arctangent `atan2 y x`, the convention of `np.arctan2` and of
`cmath.phase` (which is `atan2 (im z) (re z)`): the argument of `x + y*I`. -/
def atan2 (y x : ℝ) : ℝ := Complex.arg ⟨x, y⟩

/-- `cmath.phase`. -/
def cphase (z : ℂ) : ℝ := Complex.arg z

/-- `cmath.rect r phi = r * (cos phi + I sin phi)`. -/
def crect (r phi : ℝ) : ℂ := ⟨r * Real.cos phi, r * Real.sin phi⟩

/-- numpy (pre-2.0) `np.sign` on a complex value: `sign(z.real) + 0j` when the real
part is nonzero, otherwise `sign(z.imag) + 0j`. -/
def npSignC (z : ℂ) : ℂ :=
  if z.re = 0 then ((Real.sign z.im : ℝ) : ℂ) else ((Real.sign z.re : ℝ) : ℂ)

/-- Python exceptions and mtpy error classes that the modelled code can raise.
`mtpyErrorZ` is the `MTpyError_Z` "tensor error" kind, `mtpyErrorEDI` is
`MTpyError_EDI`, `mtpyErrorInput` is `MTpyError_inputarguments`. -/
inductive PyErr
  | indexError
  | typeError
  | nameError
  | attributeError
  | mtpyErrorZ
  | mtpyErrorEDI
  | mtpyErrorInput
deriving DecidableEq

/-- `rotation_angle` starts life as the float `0.` and is later replaced by an
array; both shapes occur in the source. -/
inductive RotAngle
  | scalar (x : ℝ)
  | arr (xs : List ℝ)
deriving DecidableEq

/-- The `isinstance(self.rotation_angle, float)` promotion of `Z._set_z`
(z.py 232-234): a scalar angle is repeated to the new tensor length. -/
def promoteRot (r : RotAngle) (n : ℕ) : RotAngle :=
  match r with
  | .scalar x => .arr (List.replicate n x)
  | .arr a => .arr a

/-- Scalar-or-sequence numeric argument (rotation angles, static-shift factors,
frequency lists): numpy-style inputs that the source tests with `np.iterable`. -/
inductive NumIn
  | scalar (x : ℝ)
  | arr (xs : List ℝ)

/-- `z_array` argument of `Z.__init__` / `Z._set_z`: either a single `(2, 2)`
matrix (promoted to a length-1 sequence) or an `(n, 2, 2)` array. -/
inductive ZIn
  | single (M : Mat2 ℂ)
  | multi (ms : List (Mat2 ℂ))

/-- Promotion performed by `Z.__init__` and `Z._set_z` on a `(2, 2)` input. -/
def promoteZ : ZIn → List (Mat2 ℂ)
  | .single M => [M]
  | .multi ms => ms

/-- `z_err_array` argument, same promotion rule. -/
inductive ZErrIn
  | single (M : Mat2 ℝ)
  | multi (ms : List (Mat2 ℝ))

def promoteZErr : ZErrIn → List (Mat2 ℝ)
  | .single M => [M]
  | .multi ms => ms

/-! ## Shared error-propagation utilities

These live in `mtpy.utils.calculator`, which is not under `src/`; each is
modelled from the spec (section 4.3). -/

/-- Modelled from the spec: `z_error2r_phi_error` of `mtpy.utils.calculator`
(module absent from src); the spec describes it as `RectangularToPolarError`,
first-order propagation through `radius = hypot(re, im)` and
`angle = atan2(im, re)`, the angle error reported in degrees to match the
stored phase unit. -/
def z_error2r_phi_error (re reErr im imErr : ℝ) : ℝ × ℝ :=
  let r := Real.sqrt (re ^ 2 + im ^ 2)
  (Real.sqrt ((re / r * reErr) ^ 2 + (im / r * imErr) ^ 2),
   degrees (Real.sqrt ((im / r ^ 2 * reErr) ^ 2 + (re / r ^ 2 * imErr) ^ 2)))

/-- Modelled from the spec: `propagate_error_rect2polar` of
`mtpy.utils.calculator` (module absent from src), the same
`RectangularToPolarError` utility used by the Tipper. -/
def propagate_error_rect2polar (re reErr im imErr : ℝ) : ℝ × ℝ :=
  z_error2r_phi_error re reErr im imErr

/-- Modelled from the spec: `propagate_error_polar2rect` of
`mtpy.utils.calculator` (module absent from src); the spec describes it as
`PolarToRectangularError (radius, radius_err, angle_deg, angle_err_deg)`,
first-order propagation to the rectangular components. -/
def propagate_error_polar2rect (r rErr phiDeg phiErrDeg : ℝ) : ℝ × ℝ :=
  let phi := radians phiDeg
  let dphi := radians phiErrDeg
  (Real.sqrt ((Real.cos phi * rErr) ^ 2 + (r * Real.sin phi * dphi) ^ 2),
   Real.sqrt ((Real.sin phi * rErr) ^ 2 + (r * Real.cos phi * dphi) ^ 2))

/-- Rotation matrix for an angle in degrees, clockwise positive from north. -/
def rotMatR (angleDeg : ℝ) : Mat2 ℝ :=
  let phi := radians angleDeg
  ⟨Real.cos phi, Real.sin phi, -Real.sin phi, Real.cos phi⟩

/-- Modelled from the spec: `rotatematrix_incl_errors` of
`mtpy.utils.calculator` (module absent from src); the spec describes it as
`RotateMatrixWithError`: applies `R(angle) M R(angle)^T` and propagates element
errors by the partial-derivative (delta) method. -/
def rotatematrix_incl_errors (M : Mat2 ℂ) (angleDeg : ℝ) (Merr : Option (Mat2 ℝ)) :
    Mat2 ℂ × Option (Mat2 ℝ) :=
  let R := rotMatR angleDeg
  ((R.toC.mul M).mul R.toC.transpose,
   Merr.map fun E => Mat2.ofFn fun i j =>
     Real.sqrt (∑ k : Fin 2, ∑ l : Fin 2, (R.get i k * R.get j l * E.get k l) ^ 2))

/-- Modelled from the spec: `rotatevector_incl_errors` of
`mtpy.utils.calculator` (module absent from src); the spec describes it as
`RotateVectorWithError`, the `1x2` row-vector analogue (`v R(angle)^T`) with
delta-method error propagation; without an input error it returns `None` for
the error component. -/
def rotatevector_incl_errors (v : Vec2 ℂ) (angleDeg : ℝ) (verr : Option (Vec2 ℝ)) :
    Vec2 ℂ × Option (Vec2 ℝ) :=
  let R := rotMatR angleDeg
  (⟨v.tx * (R.xx : ℂ) + v.ty * (R.xy : ℂ), v.tx * (R.yx : ℂ) + v.ty * (R.yy : ℂ)⟩,
   verr.map fun e =>
     ⟨Real.sqrt ((R.xx * e.tx) ^ 2 + (R.xy * e.ty) ^ 2),
      Real.sqrt ((R.yx * e.tx) ^ 2 + (R.yy * e.ty) ^ 2)⟩)

/-- Modelled from the spec: `invertmatrix_incl_errors` of
`mtpy.utils.calculator` (module absent from src); the spec describes it as
`InvertMatrixWithError`: analytic 2x2 inverse with first-order error
propagation through the determinant and cofactor terms
(`d(inv)_{ij}/dM_{kl} = -inv_{ik} * inv_{lj}`). -/
def invertmatrix_incl_errors (M Merr : Mat2 ℝ) : Mat2 ℝ × Mat2 ℝ :=
  let Mi := M.inv2
  (Mi, Mat2.ofFn fun i j =>
    Real.sqrt (∑ k : Fin 2, ∑ l : Fin 2, (Mi.get i k * Mi.get l j * Merr.get k l) ^ 2))

/-! ## The `Z` impedance-tensor class -/

/-- State of a `Z` instance: the stored arrays and the derived quantities. -/
structure ZState where
  z : Option (List (Mat2 ℂ))
  z_err : Option (List (Mat2 ℝ))
  freq : Option (List ℝ)
  rotation_angle : RotAngle
  resistivity : Option (List (Mat2 ℝ))
  resistivity_err : Option (List (Mat2 ℝ))
  phase : Option (List (Mat2 ℝ))
  phase_err : Option (List (Mat2 ℝ))

/-- `resistivity[idx_f, ii, jj] = np.abs(z)**2 / freq * 0.2` (z.py line 408). -/
def resVal (z : ℂ) (f : ℝ) : ℝ := Complex.abs z ^ 2 / f * 0.2

/-- `phase[idx_f, ii, jj] = math.degrees(cmath.phase(z))` (z.py line 410). -/
def phaseVal (z : ℂ) : ℝ := degrees (cphase z)

/-- One frequency slice of the resistivity array. -/
def resMat (M : Mat2 ℂ) (f : ℝ) : Mat2 ℝ := M.map (fun z => resVal z f)

/-- One frequency slice of the phase array. -/
def phaseMat (M : Mat2 ℂ) : Mat2 ℝ := M.map phaseVal

/-- One slice of `resistivity_err`: `0.4 * np.abs(z) / freq * r_err` (z.py 420-422). -/
def resErrMat (M : Mat2 ℂ) (E : Mat2 ℝ) (f : ℝ) : Mat2 ℝ :=
  Mat2.ofFn fun i j =>
    0.4 * Complex.abs (M.get i j) / f *
      (z_error2r_phi_error (M.get i j).re (E.get i j) (M.get i j).im (E.get i j)).1

/-- One slice of `phase_err` (z.py 423). -/
def phaseErrMat (M : Mat2 ℂ) (E : Mat2 ℝ) : Mat2 ℝ :=
  Mat2.ofFn fun i j =>
    (z_error2r_phi_error (M.get i j).re (E.get i j) (M.get i j).im (E.get i j)).2

/-- `Z._compute_res_phase` (z.py 378-423).  Returns unchanged when `freq` or `z`
is `None`.  The Python loop writes element by element; an out-of-range index
access (`self.freq[idx_f]` when the frequency list is shorter than the tensor,
or `self.z_err[idx_f, ...]` when the error array is shorter) raises an
IndexError mid-loop, leaving the freshly zero-initialised derived arrays only
partially written.  Every caller wraps this in `try/except IndexError` and only
logs, so the partial state is what survives; the partial-fill below reproduces
that element-level semantics (`kF`/`kE` are the first indices at which the
frequency or error lookup would fail). -/
def computeResPhase (s : ZState) : ZState :=
  match s.freq, s.z with
  | none, _ => s
  | some _, none => s
  | some fs, some zs =>
    let n := zs.length
    let kF := fs.length
    let kE := match s.z_err with
      | none => n
      | some zes => zes.length
    let full := min kF kE
    let res := (List.range n).map fun i =>
      if i < full then resMat (zs.getD i mat0C) (fs.getD i 0)
      else if i = kE ∧ kE < kF then
        ⟨resVal ((zs.getD i mat0C).get 0 0) (fs.getD i 0), 0, 0, 0⟩
      else mat0R
    let ph := (List.range n).map fun i =>
      if i < full then phaseMat (zs.getD i mat0C)
      else if i = kE ∧ kE < kF then
        ⟨phaseVal ((zs.getD i mat0C).get 0 0), 0, 0, 0⟩
      else mat0R
    match s.z_err with
    | none =>
      { s with resistivity := some res, phase := some ph,
               resistivity_err := none, phase_err := none }
    | some zes =>
      let resErr := (List.range zes.length).map fun i =>
        if i < min n full then resErrMat (zs.getD i mat0C) (zes.getD i mat0R) (fs.getD i 0)
        else mat0R
      let phErr := (List.range zes.length).map fun i =>
        if i < min n full then phaseErrMat (zs.getD i mat0C) (zes.getD i mat0R)
        else mat0R
      { s with resistivity := some res, phase := some ph,
               resistivity_err := some resErr, phase_err := some phErr }

/-- `Z.__init__` (z.py 110-158): stores the arrays (promoting a `(2, 2)` input to
length 1), initialises `rotation_angle` to a zero array when a tensor is given
(a scalar `0.` otherwise), and ends with `_compute_res_phase` when the tensor
is present. -/
def mkZ (zin : Option ZIn) (ein : Option ZErrIn) (fr : Option (List ℝ)) : ZState :=
  let z0 := zin.map promoteZ
  let e0 := ein.map promoteZErr
  let rot : RotAngle := match z0 with
    | some zs => .arr (List.replicate zs.length 0)
    | none => .scalar 0
  let s : ZState :=
    { z := z0, z_err := e0, freq := fr, rotation_angle := rot,
      resistivity := none, resistivity_err := none, phase := none, phase_err := none }
  match z0 with
  | some _ => computeResPhase s
  | none => s

/-- `Z._set_freq` (z.py 161-192): wraps a scalar into a length-1 array; when a
tensor is held and the lengths disagree it warns and leaves the state
unchanged; otherwise stores the array and recomputes the derived quantities
when a tensor is held. -/
def setFreq (s : ZState) (lo : NumIn) : ZState :=
  let lf := match lo with
    | .scalar x => [x]
    | .arr xs => xs
  match s.z with
  | some zs =>
    if lf.length ≠ zs.length then s
    else computeResPhase { s with freq := some lf }
  | none => { s with freq := some lf }

/-- `Z._set_z` (z.py 203-241): stores the (promoted) tensor with NO length check
against `freq`, promotes a scalar `rotation_angle` to an array of the new
length, and recomputes the derived quantities (`try/except IndexError`, which
only logs, so a partial recompute survives). -/
def setZ (s : ZState) (zin : ZIn) : ZState :=
  let zs := promoteZ zin
  computeResPhase { s with z := some zs, rotation_angle := promoteRot s.rotation_angle zs.length }

/-- `Z._set_z_err` (z.py 249-272): compares shapes and logs a warning on a
mismatch, but assigns the array REGARDLESS (the assignment on line 265 is not
guarded), then recomputes.  Accessing `self.z.shape` with no tensor raises
AttributeError. -/
def setZErr (s : ZState) (e : List (Mat2 ℝ)) : ZState × Option PyErr :=
  match s.z with
  | none => (s, some .attributeError)
  | some _ => (computeResPhase { s with z_err := some e }, none)

/-- Error-propagation stage of `Z.set_res_phase` (z.py 518-576), reached when
both error arrays are supplied and the rebuilt tensor `s1` is already stored:
`z_err_new[i,c] = max(propagate_error_polar2rect(|Z|, 0.5*|Z|*res_err/res,
phase, phase_err))`, then assignment through the `z_err` setter and a final
recompute.  Accessing `res_array[idx_f]` past the new tensor length raises
IndexError. -/
def setResPhaseErrStage (s1 : ZState) (fs : List ℝ) (res ph re pe : List (Mat2 ℝ))
    (n m : ℕ) : ZState × Option PyErr :=
  if n < m then (s1, some .indexError)
  else
    let zerrnew := (List.range m).map fun i =>
      Mat2.ofFn fun ii jj =>
        let absz := Real.sqrt (5 * fs.getD i 0 * (res.getD i mat0R).get ii jj)
        let rel := (re.getD i mat0R).get ii jj / (res.getD i mat0R).get ii jj
        let pr := propagate_error_polar2rect absz (0.5 * absz * rel)
                  ((ph.getD i mat0R).get ii jj) ((pe.getD i mat0R).get ii jj)
        max pr.1 pr.2
    let s2 := (setZErr s1 zerrnew).1
    (computeResPhase s2, none)

/-- Frequency-guard and rebuild stage of `Z.set_res_phase` (z.py 494-576),
reached after the shape checks determined the rebuild length `n`. -/
def setResPhaseFreqStage (s : ZState) (res ph : List (Mat2 ℝ))
    (resErr phErr : Option (List (Mat2 ℝ))) (n : ℕ) : ZState × Option PyErr :=
  match s.freq with
  | none => (s, some .mtpyErrorEDI)
  | some fs =>
    if fs.length ≠ res.length then (s, some .mtpyErrorEDI)
    else
      let znew := (List.range n).map fun i =>
        Mat2.ofFn fun ii jj =>
          crect (Real.sqrt (5 * fs.getD i 0 * (res.getD i mat0R).get ii jj))
                (radians ((ph.getD i mat0R).get ii jj))
      let s1 := setZ s (.multi znew)
      match resErr, phErr with
      | some re, some pe =>
        match s1.z_err with
        | some zes =>
          if re.length = zes.length ∧ pe.length = zes.length then
            setResPhaseErrStage s1 fs res ph re pe n zes.length
          else (s1, none)
        | none =>
          if re.length = pe.length then
            setResPhaseErrStage s1 fs res ph re pe n re.length
          else (s1, none)
      | _, _ => (s1, none)

/-- `Z.set_res_phase` (z.py 463-576): rebuilds the tensor from resistivity and
phase via `abs_z = sqrt(5 * freq * res)` and `cmath.rect(abs_z, radians(phase))`.
Shape mismatches log and no-op; a missing or length-mismatched `freq` raises
`MTpyError_EDI`.  (The complex-valuedness guards cannot fire on these typed
real inputs.)  The rebuilt tensor is assigned through the `z` property setter,
which already recomputes resistivity and phase; with no error arrays the method
then returns before its trailing recompute. -/
def setResPhase (s : ZState) (res ph : List (Mat2 ℝ))
    (resErr phErr : Option (List (Mat2 ℝ))) : ZState × Option PyErr :=
  match s.z with
  | some zs =>
    if res.length = zs.length ∧ ph.length = zs.length then
      setResPhaseFreqStage s res ph resErr phErr zs.length
    else (s, none)
  | none =>
    if res.length = ph.length then
      setResPhaseFreqStage s res ph resErr phErr res.length
    else (s, none)

/-- Scalar-or-sequence rotation-angle argument (`Z.rotate` / `Tipper.rotate`). -/
inductive AngleIn
  | scalar (a : ℝ)
  | arr (xs : List ℝ)

/-- Normalisation of the angle argument (z.py 630-653): a scalar or a length-1
sequence is broadcast to `n` copies of its value mod 360; a longer sequence is
normalised elementwise. -/
def loAngles (n : ℕ) (alpha : AngleIn) : List ℝ :=
  match alpha with
  | .scalar a => List.replicate n (fmod a 360)
  | .arr xs =>
    if xs.length = 1 then List.replicate n (fmod (xs.getD 0 0) 360)
    else xs.map (fun x => fmod x 360)

/-- `Z.rotate` (z.py 603-687): accumulates the normalised angles into
`rotation_angle` (mod 360) BEFORE checking the count against the tensor length;
on a count mismatch it returns with `rotation_angle` already advanced and the
tensor untouched.  When the supplied sequence is SHORTER than
`rotation_angle`, the accumulation comprehension itself raises IndexError and
`rotation_angle` is left unchanged.  (The NaN-angle clause is outside this
exact-real model.)  On success the rotated tensor and error are assigned
through the property setters and the derived quantities recomputed. -/
def zRotate (s : ZState) (alpha : AngleIn) : ZState × Option PyErr :=
  match s.z with
  | none => (s, none)
  | some zs =>
    let lo := loAngles zs.length alpha
    match s.rotation_angle with
    | .scalar _ => (s, some .typeError)
    | .arr ras =>
      if lo.length < ras.length then (s, some .indexError)
      else
        let ras2 := (List.range ras.length).map fun i => fmod (ras.getD i 0 + lo.getD i 0) 360
        let s1 := { s with rotation_angle := RotAngle.arr ras2 }
        if lo.length ≠ zs.length then (s1, none)
        else
          match s.z_err with
          | none =>
            let zrot := (List.range zs.length).map fun i =>
              (rotatematrix_incl_errors (zs.getD i mat0C) (lo.getD i 0) none).1
            (computeResPhase (setZ s1 (.multi zrot)), none)
          | some zes =>
            if zes.length < zs.length then (s1, some .indexError)
            else
              let zrot := (List.range zs.length).map fun i =>
                (rotatematrix_incl_errors (zs.getD i mat0C) (lo.getD i 0)
                  (some (zes.getD i mat0R))).1
              let zerrrot := (List.range zes.length).map fun i =>
                if i < zs.length then
                  ((rotatematrix_incl_errors (zs.getD i mat0C) (lo.getD i 0)
                    (some (zes.getD i mat0R))).2).getD mat0R
                else zes.getD i mat0R
              let s2 := setZ s1 (.multi zrot)
              let s3 := (setZErr s2 zerrrot).1
              (computeResPhase s3, none)

/-- `Z.remove_ss` (z.py 689-806): parses each factor (scalar or length-1
sequence broadcast to all indices; an iterable of any other length reaches
`np.repeat(x_factor, ...)` with the local `x_factor` UNBOUND and raises
NameError), divides row 0 of each tensor slice by `sqrt(factor_x)` and row 1 by
`sqrt(factor_y)`, and returns the per-index static-shift matrix
`diag(sqrt(fx), sqrt(fy))` together with the corrected tensor.  The method
never assigns any attribute of `self`, so the instance state is untouched;
`len(self.z)` with no tensor raises TypeError. -/
def removeSS (s : ZState) (fx fy : NumIn) :
    Except PyErr (List (Mat2 ℝ) × List (Mat2 ℂ)) :=
  let px : Except PyErr ℝ := match fx with
    | .scalar x => .ok x
    | .arr xs => if xs.length = 1 then .ok (xs.getD 0 0) else .error .nameError
  match px with
  | .error e => .error e
  | .ok x =>
    match s.z with
    | none => .error .typeError
    | some zs =>
      let pyf : Except PyErr ℝ := match fy with
        | .scalar y => .ok y
        | .arr ys => if ys.length = 1 then .ok (ys.getD 0 0) else .error .nameError
      match pyf with
      | .error e => .error e
      | .ok y =>
        let ss := zs.map (fun _ => (⟨Real.sqrt x, 0, 0, Real.sqrt y⟩ : Mat2 ℝ))
        let zc := zs.map (fun M =>
          (⟨M.xx / (Real.sqrt x : ℂ), M.xy / (Real.sqrt x : ℂ),
            M.yx / (Real.sqrt y : ℂ), M.yy / (Real.sqrt y : ℂ)⟩ : Mat2 ℂ))
        .ok (ss, zc)

/-- The success/reconstruction property claimed for `remove_ss`: the call
returns a static-shift list and corrected tensor of the tensor's length, and
left-multiplying each corrected slice by the matching static-shift matrix gives
back the original tensor slice. -/
def ssReconstructs (r : Except PyErr (List (Mat2 ℝ) × List (Mat2 ℂ)))
    (zs : List (Mat2 ℂ)) : Prop :=
  ∃ p, r = Except.ok p ∧ p.1.length = zs.length ∧ p.2.length = zs.length ∧
    ∀ i, i < zs.length →
      Mat2.mul ((p.1.getD i mat0R).toC) (p.2.getD i mat0C) = zs.getD i mat0C

/-- `Z.remove_distortion` (z.py 808-902): inverting a singular real 2x2
distortion matrix raises `MTpyError_Z` (the `np.linalg.LinAlgError` from
`np.matrix.I` is re-raised as the mtpy tensor error); otherwise
`Z0[i] = D^-1 * Z[i]` with the four-term one-norm error combination of the
`D^-1` error (from `invertmatrix_incl_errors`) and the stored tensor error.
The method mutates nothing.  With no stored tensor the `len(self.z)` loop
raises TypeError; with no stored tensor error the elementwise write into the
0-d `np.zeros_like(None)` raises IndexError on the first iteration, and so
does a stored error array shorter than the tensor. -/
def removeDistortion (s : ZState) (D : Mat2 ℝ) (Derr : Option (Mat2 ℝ)) :
    Except PyErr (Mat2 ℝ × List (Mat2 ℂ) × List (Mat2 ℝ)) :=
  let De := Derr.getD mat0R
  if D.det2 = 0 then .error .mtpyErrorZ
  else
    let DI := D.inv2
    let DIe := (invertmatrix_incl_errors D De).2
    match s.z with
    | none => .error .typeError
    | some zs =>
      match s.z_err with
      | none => if zs.length = 0 then .ok (D, [], []) else .error .indexError
      | some zes =>
        if zes.length < zs.length then .error .indexError
        else
          let zc := zs.map (fun M => DI.toC.mul M)
          -- `z_corrected_err = np.zeros_like(self.z_err)` has the ERROR array's
          -- length; only the first `len(z)` slices are overwritten by the loop
          let zcErr := (List.range zes.length).map fun i =>
            if i < zs.length then
              Mat2.ofFn fun ii jj =>
                Complex.abs ((DIe.get ii 0 : ℂ) * ((zs.getD i mat0C).get 0 jj)) +
                |DI.get ii 0 * ((zes.getD i mat0R).get 0 jj)| +
                Complex.abs ((DIe.get ii 1 : ℂ) * ((zs.getD i mat0C).get 1 jj)) +
                |DI.get ii 1 * ((zes.getD i mat0R).get 1 jj)|
            else mat0R
          .ok (D, zc, zcErr)

/-- `Z._get_only1d` (z.py 904-924): zeroes the diagonal, then replaces each
off-diagonal entry by `np.sign(entry) * (0.5 * (z[1,0] + z[0,1]))` — the numpy
complex sign of the original entry times the COMPLEX mean of the two
off-diagonal entries.  Operates on a copy (`copy.copy` of an ndarray), so the
stored tensor is untouched. -/
def zOnly1d (zs : List (Mat2 ℂ)) : List (Mat2 ℂ) :=
  zs.map fun M =>
    let mean1d := 0.5 * (M.yx + M.xy)
    ⟨0, npSignC M.xy * mean1d, npSignC M.yx * mean1d, 0⟩

/-- `Z._get_only2d` (z.py 933-946): zeroes the diagonal only, on a copy. -/
def zOnly2d (zs : List (Mat2 ℂ)) : List (Mat2 ℂ) :=
  zs.map fun M => ⟨0, M.xy, M.yx, 0⟩

/-- Read `resistivity[i, ii, jj]` of an instance. -/
def getRes (s : ZState) (i : ℕ) (ii jj : Fin 2) : ℝ :=
  ((s.resistivity.getD []).getD i mat0R).get ii jj

/-- Read `phase[i, ii, jj]` of an instance. -/
def getPhase (s : ZState) (i : ℕ) (ii jj : Fin 2) : ℝ :=
  ((s.phase.getD []).getD i mat0R).get ii jj

/-! ## The `Tipper` class -/

/-- State of a `Tipper` instance. -/
structure TipperState where
  tipper : Option (List (Vec2 ℂ))
  tipper_err : Option (List (Vec2 ℝ))
  freq : Option (List ℝ)
  rotation_angle : RotAngle
  amplitude : Option (List (Vec2 ℝ))
  amplitude_err : Option (List (Vec2 ℝ))
  phase : Option (List (Vec2 ℝ))
  phase_err : Option (List (Vec2 ℝ))
  mag_real : Option (List ℝ)
  mag_imag : Option (List ℝ)
  angle_real : Option (List ℝ)
  angle_imag : Option (List ℝ)
  mag_err : Option (List ℝ)
  angle_err : Option (List ℝ)

/-- `Tipper.__init__` (z.py 1179-1224): stores the arrays, initialises
`rotation_angle` (zero array when a tipper is present, scalar `0.` otherwise)
and sets EVERY derived attribute to `None`.  Unlike `Z.__init__`, it does not
trigger any derived-quantity computation. -/
def mkTipper (tin : Option (List (Vec2 ℂ))) (ein : Option (List (Vec2 ℝ)))
    (fr : Option (List ℝ)) : TipperState :=
  let rot : RotAngle := match tin with
    | some ts => .arr (List.replicate ts.length 0)
    | none => .scalar 0
  ⟨tin, ein, fr, rot, none, none, none, none, none, none, none, none, none, none⟩

/-- `Tipper._compute_mag_direction` (z.py 1569-1618): magnitudes are the
euclidean norms of the real/imaginary parts; the angles are
`rad2deg(arctan2(-Ty, -Tx))` — both components negated, the Parkinson
convention — and the optional rough error estimates use
`rad2deg(arctan2(err_x, err_y)) % 45`. -/
def computeMagDirection (s : TipperState) : TipperState :=
  match s.tipper with
  | none => s
  | some ts =>
    let base := { s with
      mag_real := some (ts.map fun v => Real.sqrt (v.tx.re ^ 2 + v.ty.re ^ 2)),
      mag_imag := some (ts.map fun v => Real.sqrt (v.tx.im ^ 2 + v.ty.im ^ 2)),
      angle_real := some (ts.map fun v => degrees (atan2 (-v.ty.re) (-v.tx.re))),
      angle_imag := some (ts.map fun v => degrees (atan2 (-v.ty.im) (-v.tx.im))),
      mag_err := (none : Option (List ℝ)), angle_err := (none : Option (List ℝ)) }
    match s.tipper_err with
    | none => base
    | some tes =>
      { base with
        mag_err := some (tes.map fun e => Real.sqrt (e.tx ^ 2 + e.ty ^ 2)),
        angle_err := some (tes.map fun e => fmod (degrees (atan2 e.tx e.ty)) 45) }

/-- `Tipper._compute_amp_phase` (z.py 1474-1513): `amplitude = |T|`, `phase` in
degrees, with `propagate_error_rect2polar` error propagation; the same
element-level partial-write semantics as `Z._compute_res_phase` apply when the
stored error array is shorter than the tipper (`kE` is the first failing
index; at that iteration only the `Tx` amplitude and phase get written). -/
def computeAmpPhase (s : TipperState) : TipperState :=
  match s.tipper with
  | none => s
  | some ts =>
    let n := ts.length
    let kE := match s.tipper_err with
      | none => n
      | some tes => tes.length
    let amp := (List.range n).map fun i =>
      if i < kE then
        (⟨Complex.abs (ts.getD i vec0C).tx, Complex.abs (ts.getD i vec0C).ty⟩ : Vec2 ℝ)
      else if i = kE then ⟨Complex.abs (ts.getD i vec0C).tx, 0⟩
      else vec0R
    let ph := (List.range n).map fun i =>
      if i < kE then
        (⟨phaseVal (ts.getD i vec0C).tx, phaseVal (ts.getD i vec0C).ty⟩ : Vec2 ℝ)
      else if i = kE then ⟨phaseVal (ts.getD i vec0C).tx, 0⟩
      else vec0R
    match s.tipper_err with
    | none =>
      { s with amplitude := some amp, phase := some ph,
               amplitude_err := none, phase_err := none }
    | some tes =>
      let ampErr := (List.range tes.length).map fun i =>
        if i < min n kE then
          (⟨(propagate_error_rect2polar (ts.getD i vec0C).tx.re (tes.getD i vec0R).tx
              (ts.getD i vec0C).tx.im (tes.getD i vec0R).tx).1,
            (propagate_error_rect2polar (ts.getD i vec0C).ty.re (tes.getD i vec0R).ty
              (ts.getD i vec0C).ty.im (tes.getD i vec0R).ty).1⟩ : Vec2 ℝ)
        else vec0R
      let phErr := (List.range tes.length).map fun i =>
        if i < min n kE then
          (⟨(propagate_error_rect2polar (ts.getD i vec0C).tx.re (tes.getD i vec0R).tx
              (ts.getD i vec0C).tx.im (tes.getD i vec0R).tx).2,
            (propagate_error_rect2polar (ts.getD i vec0C).ty.re (tes.getD i vec0R).ty
              (ts.getD i vec0C).ty.im (tes.getD i vec0R).ty).2⟩ : Vec2 ℝ)
        else vec0R
      { s with amplitude := some amp, phase := some ph,
               amplitude_err := some ampErr, phase_err := some phErr }

/-- `Tipper._set_tipper` (z.py 1261-1303): stores the (valid-shaped) array and
recomputes magnitude/direction and amplitude/phase.  The rotation-angle
promotion guard compares `self.rotation_angle is float`, which is always
false, so it never fires. -/
def setTipper (s : TipperState) (ts : List (Vec2 ℂ)) : TipperState :=
  computeAmpPhase (computeMagDirection { s with tipper := some ts })

/-- `Tipper._set_tipper_err` (z.py 1311-1356): for a well-typed array input the
final unconditional assignment stores it (mismatch warnings notwithstanding)
and both recomputes run; assigning `None` hits `None.shape` in the first
`try`-block, whose `except IndexError` does not catch the AttributeError. -/
def setTipperErr (s : TipperState) (e : Option (List (Vec2 ℝ))) :
    TipperState × Option PyErr :=
  match e with
  | none => (s, some .attributeError)
  | some es => (computeAmpPhase (computeMagDirection { s with tipper_err := some es }), none)

/-- `Tipper.rotate` (z.py 1645-1724): same broadcast/normalise/accumulate
shape as `Z.rotate`, BUT on a failed count check it RESETS `rotation_angle` to
the scalar `0.` (line 1698) instead of keeping the advanced array.  On the
success path the rotated arrays go through the property setters; with no
stored tipper error the trailing `self.tipper_err = None` assignment raises
AttributeError (after the rotated tipper was already stored). -/
def tipperRotate (s : TipperState) (alpha : AngleIn) : TipperState × Option PyErr :=
  match s.tipper with
  | none => (s, none)
  | some ts =>
    let lo := loAngles ts.length alpha
    match s.rotation_angle with
    | .scalar _ => (s, some .typeError)
    | .arr ras =>
      if lo.length < ras.length then (s, some .indexError)
      else
        let ras2 := (List.range ras.length).map fun i => fmod (ras.getD i 0 + lo.getD i 0) 360
        if lo.length ≠ ts.length then
          ({ s with rotation_angle := RotAngle.scalar 0 }, none)
        else
          let s1 := { s with rotation_angle := RotAngle.arr ras2 }
          match s.tipper_err with
          | none =>
            let trot := (List.range ts.length).map fun i =>
              (rotatevector_incl_errors (ts.getD i vec0C) (lo.getD i 0) none).1
            (setTipper s1 trot, some .attributeError)
          | some tes =>
            if tes.length < ts.length then (s1, some .indexError)
            else
              let trot := (List.range ts.length).map fun i =>
                (rotatevector_incl_errors (ts.getD i vec0C) (lo.getD i 0)
                  (some (tes.getD i vec0R))).1
              let terot := (List.range tes.length).map fun i =>
                if i < ts.length then
                  ((rotatevector_incl_errors (ts.getD i vec0C) (lo.getD i 0)
                    (some (tes.getD i vec0R))).2).getD vec0R
                else tes.getD i vec0R
              let s2 := setTipper s1 trot
              let s3 := (setTipperErr s2 (some terot)).1
              (s3, none)

/-! ## Concrete instances used by the scenario claims -/

/-- The matrix `[[0, 1+1j], [-1-1j, 0]]` of the basic-construction scenario. -/
def zScenMat : Mat2 ℂ := ⟨0, 1 + Complex.I, -1 - Complex.I, 0⟩

/-- `Z(z_array=[[0, 1+1j], [-1-1j, 0]], freq=[1])`. -/
def zScen : ZState := mkZ (some (.single zScenMat)) none (some [1])

/-- A 2x2 matrix with every entry `1j`. -/
def matAllI : Mat2 ℂ := ⟨Complex.I, Complex.I, Complex.I, Complex.I⟩

/-- A 2x2 matrix with every entry `1.`. -/
def matAll1R : Mat2 ℝ := ⟨1, 1, 1, 1⟩

/-- A 2x2 complex matrix with every entry `1.`. -/
def matAll1C : Mat2 ℂ := ⟨1, 1, 1, 1⟩

/-- The tipper row `[0.1+0j, 0.2+0j]` of the induction-arrow scenario. -/
def tScenVec : Vec2 ℂ := ⟨((0.1 : ℝ) : ℂ), ((0.2 : ℝ) : ℂ)⟩

/-- `Tipper(tipper_array=[[[0.1+0j, 0.2+0j]]], freq=[1])`. -/
def tScen : TipperState := mkTipper (some [tScenVec]) none (some [1])

end Mtpy

/-! ## Reference/aliasing model for the `freq` getter

`Z._get_freq` (z.py 194-200) returns `np.array(self._freq)`, a fresh copy of
the stored frequency array.  To state the aliasing claim faithfully we model a
tiny heap in which arrays are numbered cells and the getter allocates. -/

namespace FreqAlias

/-- A heap of float arrays; references are indices into `cells`. -/
structure Heap where
  cells : List (List ℝ)

/-- The only field of a `Z` object this model needs: the reference held in
`self._freq`, or `None`. -/
structure ZObj where
  freqRef : Option ℕ

/-- Dereference an array cell. -/
def readArr (h : Heap) (r : ℕ) : List ℝ := h.cells.getD r []

/-- Allocate a fresh array cell holding `v`. -/
def alloc (h : Heap) (v : List ℝ) : ℕ × Heap := (h.cells.length, ⟨h.cells ++ [v]⟩)

/-- In-place mutation of the array behind a reference (what a caller could do
to the returned array). -/
def writeArr (h : Heap) (r : ℕ) (v : List ℝ) : Heap := ⟨h.cells.set r v⟩

/-- `Z._get_freq` (z.py 194-200): `None` when `_freq` is unset, otherwise
`np.array(self._freq)` — a freshly allocated copy of the stored array. -/
def getFreq (o : ZObj) (h : Heap) : Option ℕ × Heap :=
  match o.freqRef with
  | none => (none, h)
  | some r =>
    let a := alloc h (readArr h r)
    (some a.1, a.2)

end FreqAlias


/-! ## Basic lemmas about the embedding -/

namespace Mtpy

theorem getD_range_map {α : Type} (f : ℕ → α) {n i : ℕ} (d : α) (h : i < n) :
    ((List.range n).map f).getD i d = f i := by
  rw [List.getD_eq_getElem?_getD, List.getElem?_map, List.getElem?_range h]
  rfl

theorem Mat2.get_map {α β : Type} (f : α → β) (M : Mat2 α) (i j : Fin 2) :
    (Mat2.map f M).get i j = f (M.get i j) := by
  simp only [Mat2.get, Mat2.map]
  split_ifs <;> rfl

theorem Mat2.get_ofFn {α : Type} (f : Fin 2 → Fin 2 → α) (i j : Fin 2) :
    (Mat2.ofFn f).get i j = f i j := by
  fin_cases i <;> fin_cases j <;> simp [Mat2.get, Mat2.ofFn]

/-- `_compute_res_phase` only writes the four derived attributes. -/
theorem computeResPhase_z (s : ZState) : (computeResPhase s).z = s.z := by
  unfold computeResPhase
  cases hf : s.freq <;> cases hz : s.z <;> cases he : s.z_err <;> simp [hf, hz, he]

theorem computeResPhase_z_err (s : ZState) : (computeResPhase s).z_err = s.z_err := by
  unfold computeResPhase
  cases hf : s.freq <;> cases hz : s.z <;> cases he : s.z_err <;> simp [hf, hz, he]

theorem computeResPhase_freq (s : ZState) : (computeResPhase s).freq = s.freq := by
  unfold computeResPhase
  cases hf : s.freq <;> cases hz : s.z <;> cases he : s.z_err <;> simp [hf, hz, he]

theorem computeResPhase_rotation (s : ZState) :
    (computeResPhase s).rotation_angle = s.rotation_angle := by
  unfold computeResPhase
  cases hf : s.freq <;> cases hz : s.z <;> cases he : s.z_err <;> simp [hf, hz, he]

theorem mkZ_z (zin : ZIn) (ein : Option ZErrIn) (fr : Option (List ℝ)) :
    (mkZ (some zin) ein fr).z = some (promoteZ zin) := by
  unfold mkZ
  simp [computeResPhase_z]

theorem mkZ_z_err (zin : ZIn) (ein : Option ZErrIn) (fr : Option (List ℝ)) :
    (mkZ (some zin) ein fr).z_err = ein.map promoteZErr := by
  unfold mkZ
  simp [computeResPhase_z_err]

theorem mkZ_freq (zin : ZIn) (ein : Option ZErrIn) (fr : Option (List ℝ)) :
    (mkZ (some zin) ein fr).freq = fr := by
  unfold mkZ
  simp [computeResPhase_freq]

theorem mkZ_rotation (zin : ZIn) (ein : Option ZErrIn) (fr : Option (List ℝ)) :
    (mkZ (some zin) ein fr).rotation_angle = .arr (List.replicate (promoteZ zin).length 0) := by
  unfold mkZ
  simp [computeResPhase_rotation]

/-- Accumulating an already-normalised angle mod 360 is the same as accumulating
the raw angle. -/
theorem fmod_add_fmod (x y : ℝ) : fmod (x + fmod y 360) 360 = fmod (x + y) 360 := by
  unfold fmod
  have h : (x + (y - 360 * ((⌊y / 360⌋ : ℤ) : ℝ))) / 360
      = (x + y) / 360 - ((⌊y / 360⌋ : ℤ) : ℝ) := by
    ring
  rw [h, show ((x + y) / 360 - ((⌊y / 360⌋ : ℤ) : ℝ))
      = ((x + y) / 360 - (⌊y / 360⌋ : ℤ)) from rfl, Int.floor_sub_int]
  push_cast
  ring

theorem arg_one_add_I : Complex.arg (1 + Complex.I) = Real.pi / 4 := by
  have hre : (1 + Complex.I).re = 1 := by simp
  have him : (1 + Complex.I).im = 1 := by simp
  have habs : Complex.abs (1 + Complex.I) = Real.sqrt 2 := by
    rw [Complex.abs_apply, Complex.normSq_apply, hre, him]
    norm_num
  rw [Complex.arg_of_re_nonneg (by rw [hre]; norm_num), him, habs]
  have hs : Real.sqrt 2 * Real.sqrt 2 = 2 := Real.mul_self_sqrt (by norm_num)
  have hd : (1 : ℝ) / Real.sqrt 2 = Real.sqrt 2 / 2 := by
    field_simp
  rw [hd, ← Real.sin_pi_div_four]
  exact Real.arcsin_sin (by linarith [Real.pi_pos]) (by linarith [Real.pi_pos])

/-- The derived resistivity entry produced by `_compute_res_phase`, at any index
covered by both the tensor and the frequency array (and by the error array if
one is held). -/
theorem getRes_compute (s : ZState) (zs : List (Mat2 ℂ)) (fs : List ℝ)
    (hz : s.z = some zs) (hf : s.freq = some fs)
    (hke : ∀ zes, s.z_err = some zes → zs.length ≤ zes.length)
    {i : ℕ} (hi : i < zs.length) (hif : i < fs.length) (ii jj : Fin 2) :
    getRes (computeResPhase s) i ii jj
      = resVal ((zs.getD i mat0C).get ii jj) (fs.getD i 0) := by
  unfold computeResPhase getRes
  cases he : s.z_err with
  | none =>
    simp only [hz, hf, he]
    rw [Option.getD_some, getD_range_map _ _ hi, if_pos (by omega), resMat, Mat2.get_map]
  | some zes =>
    have hle := hke zes he
    simp only [hz, hf, he]
    rw [Option.getD_some, getD_range_map _ _ hi, if_pos (by omega), resMat, Mat2.get_map]

/-- The derived phase entry produced by `_compute_res_phase`. -/
theorem getPhase_compute (s : ZState) (zs : List (Mat2 ℂ)) (fs : List ℝ)
    (hz : s.z = some zs) (hf : s.freq = some fs)
    (hke : ∀ zes, s.z_err = some zes → zs.length ≤ zes.length)
    {i : ℕ} (hi : i < zs.length) (hif : i < fs.length) (ii jj : Fin 2) :
    getPhase (computeResPhase s) i ii jj = phaseVal ((zs.getD i mat0C).get ii jj) := by
  unfold computeResPhase getPhase
  cases he : s.z_err with
  | none =>
    simp only [hz, hf, he]
    rw [Option.getD_some, getD_range_map _ _ hi, if_pos (by omega), phaseMat, Mat2.get_map]
  | some zes =>
    have hle := hke zes he
    simp only [hz, hf, he]
    rw [Option.getD_some, getD_range_map _ _ hi, if_pos (by omega), phaseMat, Mat2.get_map]

end Mtpy

namespace Mtpy

theorem resVal_one_add_I : resVal (1 + Complex.I) 1 = 0.4 := by
  rw [resVal, Complex.sq_abs]
  simp [Complex.normSq_apply]
  norm_num

theorem phaseVal_one_add_I : phaseVal (1 + Complex.I) = 45 := by
  rw [phaseVal, cphase, arg_one_add_I, degrees]
  have hpi := Real.pi_ne_zero
  field_simp
  ring

/-- `mkZ` with a tensor is `computeResPhase` of the freshly initialised record. -/
theorem mkZ_eq_compute (zin : ZIn) (ein : Option ZErrIn) (fr : Option (List ℝ)) :
    mkZ (some zin) ein fr
      = computeResPhase
          ⟨some (promoteZ zin), ein.map promoteZErr, fr,
           .arr (List.replicate (promoteZ zin).length 0), none, none, none, none⟩ := rfl

/-- C1 (confirmed): for every Z instance holding a tensor and frequencies (each
tensor index covered by the frequency array, and by the error array when one is
held — the state of every consistently built instance), the derived resistivity
at index `i`, component `(ii, jj)` equals `|Z[i,ii,jj]|^2 / freq[i] * 0.2` and
the derived phase equals the atan2-based argument of `Z[i,ii,jj]` in degrees;
in particular, the instance constructed from the single matrix
`[[0, 1+1j], [-1-1j, 0]]` with `freq=[1]` has `resistivity[0,0,1] = 0.4` and
`phase[0,0,1] = 45` degrees. -/
theorem C1_res_phase_formula (s : ZState) (zs : List (Mat2 ℂ)) (fs : List ℝ)
    (hz : s.z = some zs) (hf : s.freq = some fs)
    (hke : ∀ zes, s.z_err = some zes → zs.length ≤ zes.length)
    {i : ℕ} (hi : i < zs.length) (hif : i < fs.length) (ii jj : Fin 2) :
    (getRes (computeResPhase s) i ii jj
        = Complex.abs ((zs.getD i mat0C).get ii jj) ^ 2 / fs.getD i 0 * 0.2
      ∧ getPhase (computeResPhase s) i ii jj
        = degrees (atan2 ((zs.getD i mat0C).get ii jj).im ((zs.getD i mat0C).get ii jj).re))
      ∧ getRes zScen 0 0 1 = 0.4 ∧ getPhase zScen 0 0 1 = 45 := by
  refine ⟨⟨?_, ?_⟩, ?_, ?_⟩
  · rw [getRes_compute s zs fs hz hf hke hi hif ii jj]
    rfl
  · rw [getPhase_compute s zs fs hz hf hke hi hif ii jj]
    rfl
  · have h := @getRes_compute
      (⟨some (promoteZ (.single zScenMat)), none, some [1],
        .arr (List.replicate 1 0), none, none, none, none⟩ : ZState)
      [zScenMat] [1] rfl rfl (by intro zes h; cases h) 0 (by norm_num) (by norm_num) 0 1
    rw [zScen, mkZ_eq_compute]
    simpa [promoteZ, zScenMat, Mat2.get, resVal_one_add_I] using h
  · have h := @getPhase_compute
      (⟨some (promoteZ (.single zScenMat)), none, some [1],
        .arr (List.replicate 1 0), none, none, none, none⟩ : ZState)
      [zScenMat] [1] rfl rfl (by intro zes h; cases h) 0 (by norm_num) (by norm_num) 0 1
    rw [zScen, mkZ_eq_compute]
    simpa [promoteZ, zScenMat, Mat2.get, phaseVal_one_add_I] using h

end Mtpy

namespace Mtpy

theorem C1_res_phase_formula_witness :
    (getRes (computeResPhase zScen) 0 0 1
        = Complex.abs ((([zScenMat] : List (Mat2 ℂ)).getD 0 mat0C).get 0 1) ^ 2
            / ([(1 : ℝ)].getD 0 0) * 0.2
      ∧ getPhase (computeResPhase zScen) 0 0 1
        = degrees (atan2 ((([zScenMat] : List (Mat2 ℂ)).getD 0 mat0C).get 0 1).im
            ((([zScenMat] : List (Mat2 ℂ)).getD 0 mat0C).get 0 1).re))
      ∧ getRes zScen 0 0 1 = 0.4 ∧ getPhase zScen 0 0 1 = 45 :=
  @C1_res_phase_formula zScen [zScenMat] [1]
    (by rw [zScen]; exact mkZ_z _ _ _)
    (by rw [zScen]; exact mkZ_freq _ _ _)
    (by intro zes h; rw [zScen, mkZ_z_err] at h; cases h)
    0 (by norm_num) (by norm_num) 0 1

theorem mat0R_get (ii jj : Fin 2) : mat0R.get ii jj = 0 := by
  fin_cases ii <;> fin_cases jj <;> simp [mat0R, Mat2.get]

theorem mat0C_get (ii jj : Fin 2) : mat0C.get ii jj = 0 := by
  fin_cases ii <;> fin_cases jj <;> simp [mat0C, Mat2.get]

theorem Mat2.eq_of_get {α : Type} {M N : Mat2 α}
    (h : ∀ i j : Fin 2, M.get i j = N.get i j) : M = N := by
  cases M
  cases N
  have h00 := h 0 0
  have h01 := h 0 1
  have h10 := h 1 0
  have h11 := h 1 1
  simp [Mat2.get] at h00 h01 h10 h11
  simp [h00, h01, h10, h11]

/-- Beyond the frequency array's length the derived resistivity stays at its
zero initialisation (partial write). -/
theorem getRes_compute_zero (s : ZState) (zs : List (Mat2 ℂ)) (fs : List ℝ)
    (hz : s.z = some zs) (hf : s.freq = some fs) (he : s.z_err = none)
    {i : ℕ} (hi : i < zs.length) (hif : fs.length ≤ i) (ii jj : Fin 2) :
    getRes (computeResPhase s) i ii jj = 0 := by
  unfold computeResPhase getRes
  simp only [hz, hf, he]
  rw [Option.getD_some, getD_range_map _ _ hi, if_neg (by omega),
    if_neg (by omega), mat0R_get]

/-- Beyond the frequency array's length the derived phase stays at its zero
initialisation (partial write). -/
theorem getPhase_compute_zero (s : ZState) (zs : List (Mat2 ℂ)) (fs : List ℝ)
    (hz : s.z = some zs) (hf : s.freq = some fs) (he : s.z_err = none)
    {i : ℕ} (hi : i < zs.length) (hif : fs.length ≤ i) (ii jj : Fin 2) :
    getPhase (computeResPhase s) i ii jj = 0 := by
  unfold computeResPhase getPhase
  simp only [hz, hf, he]
  rw [Option.getD_some, getD_range_map _ _ hi, if_neg (by omega),
    if_neg (by omega), mat0R_get]

/-- `_set_z` unfolded. -/
theorem setZ_eq (s : ZState) (zin : ZIn) :
    setZ s zin = computeResPhase
      { s with z := some (promoteZ zin),
               rotation_angle := promoteRot s.rotation_angle (promoteZ zin).length } := rfl

end Mtpy

namespace Mtpy

theorem phaseVal_I : phaseVal Complex.I = 90 := by
  rw [phaseVal, cphase, Complex.arg_I, degrees]
  have hpi := Real.pi_ne_zero
  field_simp
  ring

/-- C2 (corrected) — counterexample: start from `Z(z_array=[[1j,1j],[1j,1j]],
freq=[1])` and assign a length-2 tensor through the `z` setter.  The recompute
aborts on the missing `freq[1]` (IndexError, caught and logged), leaving the
derived phase at index 1 equal to its zero initialisation, although the phase
recomputed from the new state would be `90` degrees: the derived arrays are NOT
atomically recomputed from the new state. -/
theorem C2_counterexample :
    getPhase (setZ (mkZ (some (.single matAllI)) none (some [(1 : ℝ)]))
        (.multi [matAllI, matAllI])) 1 0 0 = 0
    ∧ phaseVal ((([matAllI, matAllI] : List (Mat2 ℂ)).getD 1 mat0C).get 0 0) = 90
    ∧ (0 : ℝ) ≠ 90 := by
  refine ⟨?_, ?_, by norm_num⟩
  · rw [setZ_eq]
    refine getPhase_compute_zero _ [matAllI, matAllI] [(1 : ℝ)] rfl ?_ ?_
      (by norm_num) (by norm_num) 0 0
    · exact mkZ_freq _ _ _
    · have h2 : (mkZ (some (.single matAllI)) none (some [(1 : ℝ)])).z_err = none := by
        rw [mkZ_z_err]
        rfl
      exact h2
  · simpa [matAllI, Mat2.get] using phaseVal_I

/-- C2 (amended): every setter does end with a recompute, and when the new
tensor is covered by the frequency array the derived arrays are exactly those
recomputed from the new state; but when the tensor is LONGER than the
frequency array the recompute aborts mid-loop (IndexError, caught and logged by
the setter) and the derived entries past the frequency length are left at their
zero initialisation — a partial write.  When frequencies are absent the derived
quantities are absent (`None`). -/
theorem C2_amended :
    (∀ (s : ZState) (zin : ZIn) (fs : List ℝ), s.freq = some fs → s.z_err = none →
      (∀ i, i < (promoteZ zin).length → i < fs.length → ∀ ii jj : Fin 2,
          getRes (setZ s zin) i ii jj
              = resVal (((promoteZ zin).getD i mat0C).get ii jj) (fs.getD i 0)
            ∧ getPhase (setZ s zin) i ii jj
              = phaseVal (((promoteZ zin).getD i mat0C).get ii jj))
      ∧ (∀ i, i < (promoteZ zin).length → fs.length ≤ i → ∀ ii jj : Fin 2,
          getRes (setZ s zin) i ii jj = 0 ∧ getPhase (setZ s zin) i ii jj = 0))
    ∧ (∀ (zin : ZIn) (ein : Option ZErrIn),
        (mkZ (some zin) ein none).resistivity = none
        ∧ (mkZ (some zin) ein none).phase = none) := by
  refine ⟨fun s zin fs hf he => ⟨fun i hi hif ii jj => ?_, fun i hi hif ii jj => ?_⟩,
    fun zin ein => ⟨rfl, rfl⟩⟩
  · constructor
    · rw [setZ_eq]
      refine getRes_compute _ (promoteZ zin) fs rfl ?_ ?_ hi hif ii jj
      · exact hf
      · intro zes h
        have h2 : s.z_err = some zes := h
        rw [he] at h2
        cases h2
    · rw [setZ_eq]
      refine getPhase_compute _ (promoteZ zin) fs rfl ?_ ?_ hi hif ii jj
      · exact hf
      · intro zes h
        have h2 : s.z_err = some zes := h
        rw [he] at h2
        cases h2
  · constructor
    · rw [setZ_eq]
      refine getRes_compute_zero _ (promoteZ zin) fs rfl ?_ ?_ hi hif ii jj
      · exact hf
      · exact he
    · rw [setZ_eq]
      refine getPhase_compute_zero _ (promoteZ zin) fs rfl ?_ ?_ hi hif ii jj
      · exact hf
      · exact he

theorem C2_amended_witness :
    (getRes (setZ (mkZ (some (.single matAllI)) none (some [(1 : ℝ)]))
        (.multi [matAllI, matAllI])) 0 0 0
      = resVal ((([matAllI, matAllI] : List (Mat2 ℂ)).getD 0 mat0C).get 0 0)
          ([(1 : ℝ)].getD 0 0))
    ∧ (getRes (setZ (mkZ (some (.single matAllI)) none (some [(1 : ℝ)]))
        (.multi [matAllI, matAllI])) 1 0 0 = 0)
    ∧ (mkZ (some (.single matAllI)) none none).resistivity = none :=
  ⟨((C2_amended.1 (mkZ (some (.single matAllI)) none (some [(1 : ℝ)]))
      (.multi [matAllI, matAllI]) [(1 : ℝ)] (mkZ_freq _ _ _) (by rw [mkZ_z_err]; rfl)).1
      0 (by norm_num [promoteZ]) (by norm_num) 0 0).1,
   ((C2_amended.1 (mkZ (some (.single matAllI)) none (some [(1 : ℝ)]))
      (.multi [matAllI, matAllI]) [(1 : ℝ)] (mkZ_freq _ _ _) (by rw [mkZ_z_err]; rfl)).2
      1 (by norm_num [promoteZ]) (by norm_num) 0 0).1,
   (C2_amended.2 (.single matAllI) none).1⟩

end Mtpy

namespace Mtpy

/-- What `_set_z_err` actually does when a tensor is held: the error array is
stored whether or not its shape matches. -/
theorem setZErr_assigns (s : ZState) (zs : List (Mat2 ℂ)) (e : List (Mat2 ℝ))
    (hz : s.z = some zs) :
    (setZErr s e).1.z_err = some e ∧ (setZErr s e).2 = none := by
  obtain ⟨z, ze, fr, rot, r1, r2, p1, p2⟩ := s
  have hz' : z = some zs := hz
  subst hz'
  exact ⟨computeResPhase_z_err _, rfl⟩

/-- C4 (corrected) — counterexample: `Z` holds a length-1 tensor and no error
array; assigning a length-2 error array through the `z_err` setter logs the
shape mismatch but STILL stores the mismatched array (and raises nothing): the
stored tensor-error state is changed, not left unchanged. -/
theorem C4_counterexample :
    (setZErr (mkZ (some (.single matAllI)) none (some [(1 : ℝ)]))
        [matAll1R, matAll1R]).1.z_err = some [matAll1R, matAll1R]
    ∧ (setZErr (mkZ (some (.single matAllI)) none (some [(1 : ℝ)]))
        [matAll1R, matAll1R]).2 = none
    ∧ (mkZ (some (.single matAllI)) none (some [(1 : ℝ)])).z_err = none
    ∧ (some [matAll1R, matAll1R] : Option (List (Mat2 ℝ))) ≠ none := by
  refine ⟨(setZErr_assigns (mkZ (some (.single matAllI)) none (some [(1 : ℝ)])) [matAllI]
      [matAll1R, matAll1R] (mkZ_z (.single matAllI) none (some [(1 : ℝ)]))).1,
    (setZErr_assigns (mkZ (some (.single matAllI)) none (some [(1 : ℝ)])) [matAllI]
      [matAll1R, matAll1R] (mkZ_z (.single matAllI) none (some [(1 : ℝ)]))).2, ?_, by simp⟩
  rw [mkZ_z_err]
  rfl

/-- C4 (amended): with a tensor set, calling the `z_err` setter with an error
array of mismatching shape logs a warning, raises no exception, and ASSIGNS the
mismatched array anyway — the stored tensor-error state becomes the new array
(the derived errors are then recomputed as far as the indices allow). -/
theorem C4_amended (s : ZState) (zs : List (Mat2 ℂ)) (e : List (Mat2 ℝ))
    (hz : s.z = some zs) (_hmis : e.length ≠ zs.length) :
    (setZErr s e).1.z_err = some e ∧ (setZErr s e).2 = none :=
  setZErr_assigns s zs e hz

theorem C4_amended_witness :
    (setZErr (mkZ (some (.single matAllI)) none (some [(1 : ℝ)]))
        [matAll1R, matAll1R]).1.z_err = some [matAll1R, matAll1R]
    ∧ (setZErr (mkZ (some (.single matAllI)) none (some [(1 : ℝ)]))
        [matAll1R, matAll1R]).2 = none :=
  C4_amended (mkZ (some (.single matAllI)) none (some [(1 : ℝ)])) [matAllI]
    [matAll1R, matAll1R] (mkZ_z (.single matAllI) none (some [(1 : ℝ)])) (by norm_num)

end Mtpy

namespace Mtpy

theorem getD_map_lt {α β : Type} (f : α → β) (l : List α) {i : ℕ} (h : i < l.length)
    (d : β) (e : α) : (l.map f).getD i d = f (l.getD i e) := by
  rw [List.getD_eq_getElem?_getD, List.getElem?_map, List.getElem?_eq_getElem h,
    List.getD_eq_getElem?_getD, List.getElem?_eq_getElem h]
  rfl

/-- `Z.rotate` with an angle sequence LONGER than the tensor: the tensor is
untouched, `rotation_angle` is advanced entrywise mod 360, nothing is raised. -/
theorem zRotate_overlong (s : ZState) (zs : List (Mat2 ℂ)) (ras as : List ℝ)
    (hz : s.z = some zs) (hr : s.rotation_angle = .arr ras)
    (hlen : ras.length = zs.length) (h2 : 2 ≤ as.length) (hlong : zs.length < as.length) :
    (zRotate s (.arr as)).1.z = s.z
    ∧ (zRotate s (.arr as)).1.rotation_angle
        = .arr ((List.range ras.length).map fun i => fmod (ras.getD i 0 + as.getD i 0) 360)
    ∧ (zRotate s (.arr as)).2 = none := by
  obtain ⟨z, ze, fr, rot, r1, r2, p1, p2⟩ := s
  have hz' : z = some zs := hz
  have hr' : rot = RotAngle.arr ras := hr
  subst hz' hr'
  have hne1 : ¬ (as.length = 1) := by omega
  have hnlt : ¬ ((as.map fun x => fmod x 360).length < ras.length) := by
    rw [List.length_map]
    omega
  have hne : (as.map fun x => fmod x 360).length ≠ zs.length := by
    rw [List.length_map]
    omega
  simp only [zRotate, loAngles]
  rw [if_neg hne1, if_neg hnlt, if_pos hne]
  refine ⟨rfl, ?_, rfl⟩
  have harr : ((List.range ras.length).map fun i =>
      fmod (ras.getD i 0 + (as.map fun x => fmod x 360).getD i 0) 360)
      = (List.range ras.length).map fun i => fmod (ras.getD i 0 + as.getD i 0) 360 := by
    apply List.map_congr_left
    intro a ha
    rw [List.mem_range] at ha
    rw [getD_map_lt _ _ (by omega) _ 0, fmod_add_fmod]
  exact congrArg RotAngle.arr harr

/-- `Z.rotate` with an angle sequence SHORTER than `rotation_angle` (but not of
length 1): the accumulation comprehension raises IndexError before assigning,
so the whole state is unchanged. -/
theorem zRotate_short (s : ZState) (zs : List (Mat2 ℂ)) (ras as : List ℝ)
    (hz : s.z = some zs) (hr : s.rotation_angle = .arr ras)
    (h2 : 2 ≤ as.length) (hshort : as.length < ras.length) :
    zRotate s (.arr as) = (s, some .indexError) := by
  obtain ⟨z, ze, fr, rot, r1, r2, p1, p2⟩ := s
  have hz' : z = some zs := hz
  have hr' : rot = RotAngle.arr ras := hr
  subst hz' hr'
  have hne1 : ¬ (as.length = 1) := by omega
  have hlt : (as.map fun x => fmod x 360).length < ras.length := by
    rw [List.length_map]
    omega
  simp only [zRotate, loAngles]
  rw [if_neg hne1, if_pos hlt]

/-- `Tipper.rotate` with an angle sequence LONGER than the tipper: the tipper
is untouched but `rotation_angle` is RESET to the scalar `0.` (z.py 1698). -/
theorem tipperRotate_overlong (s : TipperState) (ts : List (Vec2 ℂ)) (ras as : List ℝ)
    (ht : s.tipper = some ts) (hr : s.rotation_angle = .arr ras)
    (hlen : ras.length = ts.length) (h2 : 2 ≤ as.length) (hlong : ts.length < as.length) :
    (tipperRotate s (.arr as)).1.tipper = s.tipper
    ∧ (tipperRotate s (.arr as)).1.rotation_angle = RotAngle.scalar 0
    ∧ (tipperRotate s (.arr as)).2 = none := by
  obtain ⟨t, te, fr, rot, a1, a2, p1, p2, m1, m2, g1, g2, m3, g3⟩ := s
  have ht' : t = some ts := ht
  have hr' : rot = RotAngle.arr ras := hr
  subst ht' hr'
  have hne1 : ¬ (as.length = 1) := by omega
  have hnlt : ¬ ((as.map fun x => fmod x 360).length < ras.length) := by
    rw [List.length_map]
    omega
  have hne : (as.map fun x => fmod x 360).length ≠ ts.length := by
    rw [List.length_map]
    omega
  simp only [tipperRotate, loAngles]
  rw [if_neg hne1, if_neg hnlt, if_pos hne]
  exact ⟨rfl, rfl, rfl⟩

end Mtpy

namespace Mtpy

/-- C5 (corrected) — counterexample: `Tipper(tipper_array=[[[0.1, 0.2]]],
freq=[1])` rotated with the length-2 angle list `[30, 40]` (length neither 1
nor N = 1) leaves the tipper untouched, but `rotation_angle` ends up RESET to
the scalar `0.` (z.py 1698) instead of holding the advanced entry
`(0 + 30) mod 360`. -/
theorem C5_counterexample :
    (tipperRotate tScen (.arr [30, 40])).1.rotation_angle = RotAngle.scalar 0
    ∧ (tipperRotate tScen (.arr [30, 40])).1.tipper = some [tScenVec]
    ∧ RotAngle.scalar 0 ≠ RotAngle.arr [fmod (0 + 30) 360] := by
  refine ⟨?_, ?_, by simp⟩
  · exact (tipperRotate_overlong tScen [tScenVec] [0] [30, 40] rfl rfl rfl
      (by norm_num) (by norm_num)).2.1
  · exact (tipperRotate_overlong tScen [tScenVec] [0] [30, 40] rfl rfl rfl
      (by norm_num) (by norm_num)).1

/-- C5 (amended): when an angle sequence of length neither 1 nor N is supplied,
`Z.rotate` and `Tipper.rotate` do not apply the rotation, but the
`rotation_angle` bookkeeping differs from the claim: (a) for `Z.rotate` with
MORE than N angles, `rotation_angle` is indeed advanced entrywise to
`(old + angle_i) mod 360` before the count check fires; (b) for
`Tipper.rotate` the failed count check RESETS `rotation_angle` to the scalar
`0.` rather than leaving it advanced; (c) with FEWER than N angles (length at
least 2) the accumulation comprehension raises an uncaught IndexError and
`rotation_angle` is not advanced at all. -/
theorem C5_rotate_accumulation :
    (∀ (s : ZState) (zs : List (Mat2 ℂ)) (ras as : List ℝ),
        s.z = some zs → s.rotation_angle = .arr ras → ras.length = zs.length →
        2 ≤ as.length → zs.length < as.length →
        (zRotate s (.arr as)).1.z = s.z
        ∧ (zRotate s (.arr as)).1.rotation_angle
            = .arr ((List.range ras.length).map fun i => fmod (ras.getD i 0 + as.getD i 0) 360)
        ∧ (zRotate s (.arr as)).2 = none)
    ∧ (∀ (t : TipperState) (ts : List (Vec2 ℂ)) (ras as : List ℝ),
        t.tipper = some ts → t.rotation_angle = .arr ras → ras.length = ts.length →
        2 ≤ as.length → ts.length < as.length →
        (tipperRotate t (.arr as)).1.tipper = t.tipper
        ∧ (tipperRotate t (.arr as)).1.rotation_angle = RotAngle.scalar 0
        ∧ (tipperRotate t (.arr as)).2 = none)
    ∧ (∀ (s : ZState) (zs : List (Mat2 ℂ)) (ras as : List ℝ),
        s.z = some zs → s.rotation_angle = .arr ras → 2 ≤ as.length →
        as.length < ras.length → zRotate s (.arr as) = (s, some .indexError)) :=
  ⟨fun s zs ras as hz hr hlen h2 hl => zRotate_overlong s zs ras as hz hr hlen h2 hl,
   fun t ts ras as ht hr hlen h2 hl => tipperRotate_overlong t ts ras as ht hr hlen h2 hl,
   fun s zs ras as hz hr h2 hs => zRotate_short s zs ras as hz hr h2 hs⟩

theorem C5_rotate_accumulation_witness :
    ((zRotate (mkZ (some (.multi [matAllI])) none (some [(1 : ℝ)])) (.arr [30, 40])).1.z
        = (mkZ (some (.multi [matAllI])) none (some [(1 : ℝ)])).z
      ∧ (zRotate (mkZ (some (.multi [matAllI])) none (some [(1 : ℝ)]))
          (.arr [30, 40])).1.rotation_angle
        = .arr ((List.range ([(0 : ℝ)]).length).map fun i =>
            fmod (([(0 : ℝ)]).getD i 0 + [(30 : ℝ), 40].getD i 0) 360)
      ∧ (zRotate (mkZ (some (.multi [matAllI])) none (some [(1 : ℝ)])) (.arr [30, 40])).2
        = none)
    ∧ ((tipperRotate tScen (.arr [30, 40])).1.tipper = tScen.tipper
      ∧ (tipperRotate tScen (.arr [30, 40])).1.rotation_angle = RotAngle.scalar 0
      ∧ (tipperRotate tScen (.arr [30, 40])).2 = none)
    ∧ zRotate (mkZ (some (.multi [matAllI, matAllI, matAllI])) none (some [(1 : ℝ), 1, 1]))
        (.arr [30, 40])
      = (mkZ (some (.multi [matAllI, matAllI, matAllI])) none (some [(1 : ℝ), 1, 1]),
         some .indexError) :=
  ⟨C5_rotate_accumulation.1 (mkZ (some (.multi [matAllI])) none (some [(1 : ℝ)]))
      [matAllI] [0] [30, 40]
      (mkZ_z (.multi [matAllI]) none (some [(1 : ℝ)]))
      (mkZ_rotation (.multi [matAllI]) none (some [(1 : ℝ)]))
      rfl (by norm_num) (by norm_num),
   C5_rotate_accumulation.2.1 tScen [tScenVec] [0] [30, 40] rfl rfl rfl
      (by norm_num) (by norm_num),
   C5_rotate_accumulation.2.2
      (mkZ (some (.multi [matAllI, matAllI, matAllI])) none (some [(1 : ℝ), 1, 1]))
      [matAllI, matAllI, matAllI] [0, 0, 0] [30, 40]
      (mkZ_z (.multi [matAllI, matAllI, matAllI]) none (some [(1 : ℝ), 1, 1]))
      (mkZ_rotation (.multi [matAllI, matAllI, matAllI]) none (some [(1 : ℝ), 1, 1]))
      (by norm_num) (by norm_num)⟩

end Mtpy

namespace Mtpy

/-- Reconstructing a tensor entry from its derived resistivity and phase is
exact: `rect(sqrt(5 * f * res), radians(phase)) = z` when `f > 0`. -/
theorem crect_roundtrip (z : ℂ) (f : ℝ) (hf : 0 < f) :
    crect (Real.sqrt (5 * f * resVal z f)) (radians (degrees (cphase z))) = z := by
  have hf0 : f ≠ 0 := ne_of_gt hf
  have h1 : 5 * f * resVal z f = Complex.abs z ^ 2 := by
    rw [resVal]
    field_simp
    ring
  have h2 : radians (degrees (cphase z)) = cphase z := by
    rw [radians, degrees]
    have hpi := Real.pi_ne_zero
    field_simp
  rw [h1, h2, Real.sqrt_sq (AbsoluteValue.nonneg _ _)]
  unfold crect cphase
  apply Complex.ext
  · exact Complex.abs_mul_cos_arg z
  · exact Complex.abs_mul_sin_arg z

/-- With no error array and frequencies covering the tensor, the recompute
fills the derived arrays completely. -/
theorem computeResPhase_arrays_full (zs : List (Mat2 ℂ)) (fs : List ℝ)
    (ein : Option ZErrIn) (hein : ein = none) (hlen : zs.length ≤ fs.length) :
    (mkZ (some (.multi zs)) ein (some fs)).resistivity
        = some ((List.range zs.length).map fun i => resMat (zs.getD i mat0C) (fs.getD i 0))
    ∧ (mkZ (some (.multi zs)) ein (some fs)).phase
        = some ((List.range zs.length).map fun i => phaseMat (zs.getD i mat0C)) := by
  subst hein
  rw [mkZ_eq_compute]
  simp only [promoteZ, Option.map_none', computeResPhase]
  constructor
  · congr 1
    apply List.map_congr_left
    intro a ha
    rw [List.mem_range] at ha
    rw [if_pos (by omega)]
  · congr 1
    apply List.map_congr_left
    intro a ha
    rw [List.mem_range] at ha
    rw [if_pos (by omega)]

/-- `set_res_phase` on matching real-valued arrays with a matching frequency
array: the tensor is rebuilt entrywise and assigned through the `z` setter;
with no error arrays the method then returns without raising. -/
theorem setResPhase_ok (s : ZState) (zs : List (Mat2 ℂ)) (fs : List ℝ)
    (res ph : List (Mat2 ℝ))
    (hz : s.z = some zs) (hf : s.freq = some fs)
    (hr : res.length = zs.length) (hp : ph.length = zs.length)
    (hfl : fs.length = res.length) :
    setResPhase s res ph none none
      = (setZ s (.multi ((List.range zs.length).map fun i =>
          Mat2.ofFn fun ii jj =>
            crect (Real.sqrt (5 * fs.getD i 0 * (res.getD i mat0R).get ii jj))
                  (radians ((ph.getD i mat0R).get ii jj)))), none) := by
  obtain ⟨z, ze, fr, rot, r1, r2, p1, p2⟩ := s
  have hz' : z = some zs := hz
  have hf' : fr = some fs := hf
  subst hz' hf'
  simp only [setResPhase, setResPhaseFreqStage]
  rw [if_pos ⟨hr, hp⟩, if_neg (by omega)]

/-- C3 (confirmed): applying `set_res_phase` to the derived resistivity and
phase arrays of a valid instance (positive frequencies, nonzero entries)
reproduces the stored tensor EXACTLY in this real-number model — in
particular well within the claimed `1e-9` relative tolerance — because
`sqrt(5 * freq * (|z|^2 / freq * 0.2)) = |z|` and the phase is restored in
radians via polar-to-rectangular conversion. -/
theorem C3_roundtrip (zs : List (Mat2 ℂ)) (fs : List ℝ)
    (hlen : fs.length = zs.length)
    (hpos : ∀ i, i < fs.length → 0 < fs.getD i 0)
    (_hnz : ∀ i, i < zs.length → ∀ ii jj : Fin 2, (zs.getD i mat0C).get ii jj ≠ 0) :
    (setResPhase (mkZ (some (.multi zs)) none (some fs))
        ((mkZ (some (.multi zs)) none (some fs)).resistivity.getD [])
        ((mkZ (some (.multi zs)) none (some fs)).phase.getD []) none none).1.z = some zs
    ∧ (setResPhase (mkZ (some (.multi zs)) none (some fs))
        ((mkZ (some (.multi zs)) none (some fs)).resistivity.getD [])
        ((mkZ (some (.multi zs)) none (some fs)).phase.getD []) none none).2 = none
    ∧ ∀ i, ∀ ii jj : Fin 2,
        Complex.abs ((((setResPhase (mkZ (some (.multi zs)) none (some fs))
            ((mkZ (some (.multi zs)) none (some fs)).resistivity.getD [])
            ((mkZ (some (.multi zs)) none (some fs)).phase.getD []) none
            none).1.z.getD []).getD i mat0C).get ii jj - (zs.getD i mat0C).get ii jj)
          ≤ 1e-9 * Complex.abs ((zs.getD i mat0C).get ii jj) := by
  have harr := computeResPhase_arrays_full zs fs none rfl (le_of_eq hlen.symm)
  have hres : (mkZ (some (.multi zs)) none (some fs)).resistivity.getD ([] : List (Mat2 ℝ))
      = (List.range zs.length).map fun i => resMat (zs.getD i mat0C) (fs.getD i 0) := by
    rw [harr.1]
    rfl
  have hph : (mkZ (some (.multi zs)) none (some fs)).phase.getD ([] : List (Mat2 ℝ))
      = (List.range zs.length).map fun i => phaseMat (zs.getD i mat0C) := by
    rw [harr.2]
    rfl
  have hcall := setResPhase_ok (mkZ (some (.multi zs)) none (some fs)) zs fs
    ((mkZ (some (.multi zs)) none (some fs)).resistivity.getD [])
    ((mkZ (some (.multi zs)) none (some fs)).phase.getD [])
    (mkZ_z (.multi zs) none (some fs)) (mkZ_freq (.multi zs) none (some fs))
    (by rw [hres]; simp) (by rw [hph]; simp) (by rw [hres]; simp [hlen])
  have hznew : ((List.range zs.length).map fun i =>
      Mat2.ofFn fun ii jj =>
        crect (Real.sqrt (5 * fs.getD i 0 *
            (((mkZ (some (.multi zs)) none (some fs)).resistivity.getD []).getD i mat0R).get ii jj))
          (radians ((((mkZ (some (.multi zs)) none (some fs)).phase.getD []).getD i
            mat0R).get ii jj))) = zs := by
    apply List.ext_getElem
    · simp
    · intro i h1 h2
      rw [List.getElem_map, List.getElem_range]
      have hi : i < zs.length := by simpa using h1
      apply Mat2.eq_of_get
      intro ii jj
      rw [Mat2.get_ofFn, hres, hph, getD_range_map _ _ hi, getD_range_map _ _ hi,
        resMat, phaseMat, Mat2.get_map, Mat2.get_map]
      have hgd : zs.getD i mat0C = zs[i] := by
        rw [List.getD_eq_getElem?_getD, List.getElem?_eq_getElem hi]
        rfl
      rw [phaseVal, crect_roundtrip _ _ (hpos i (by omega)), hgd]
  rw [hcall]
  refine ⟨?_, rfl, ?_⟩
  · show (setZ _ _).z = some zs
    rw [setZ_eq, computeResPhase_z]
    show some _ = some zs
    rw [hznew]
    rfl
  · intro i ii jj
    show Complex.abs ((((setZ _ _).z.getD []).getD i mat0C).get ii jj
        - (zs.getD i mat0C).get ii jj) ≤ _
    rw [setZ_eq, computeResPhase_z]
    show Complex.abs (((((some ((List.range zs.length).map _)).getD ([] : List (Mat2 ℂ))).getD
        i mat0C)).get ii jj - (zs.getD i mat0C).get ii jj) ≤ _
    rw [Option.getD_some, hznew, sub_self]
    simp only [map_zero]
    positivity

end Mtpy

namespace Mtpy

theorem C3_roundtrip_witness :
    (setResPhase (mkZ (some (.multi [matAllI])) none (some [(2 : ℝ)]))
        ((mkZ (some (.multi [matAllI])) none (some [(2 : ℝ)])).resistivity.getD [])
        ((mkZ (some (.multi [matAllI])) none (some [(2 : ℝ)])).phase.getD []) none none).1.z
      = some [matAllI]
    ∧ (setResPhase (mkZ (some (.multi [matAllI])) none (some [(2 : ℝ)]))
        ((mkZ (some (.multi [matAllI])) none (some [(2 : ℝ)])).resistivity.getD [])
        ((mkZ (some (.multi [matAllI])) none (some [(2 : ℝ)])).phase.getD []) none none).2
      = none :=
  ⟨(C3_roundtrip [matAllI] [(2 : ℝ)] rfl
      (by intro i hi
          have h0 : i = 0 := by simp at hi; omega
          subst h0
          norm_num [List.getD])
      (by intro i hi ii jj
          have h0 : i = 0 := by simp at hi; omega
          subst h0
          fin_cases ii <;> fin_cases jj <;>
            simp [matAllI, Mat2.get, List.getD, Complex.I_ne_zero])).1,
   (C3_roundtrip [matAllI] [(2 : ℝ)] rfl
      (by intro i hi
          have h0 : i = 0 := by simp at hi; omega
          subst h0
          norm_num [List.getD])
      (by intro i hi ii jj
          have h0 : i = 0 := by simp at hi; omega
          subst h0
          fin_cases ii <;> fin_cases jj <;>
            simp [matAllI, Mat2.get, List.getD, Complex.I_ne_zero])).2.1⟩

end Mtpy

namespace Mtpy

theorem inv2_matIdR : Mat2.inv2 matIdR = matIdR := by
  simp [Mat2.inv2, Mat2.det2, matIdR]

theorem invertErr_matIdR_zero : (invertmatrix_incl_errors matIdR mat0R).2 = mat0R := by
  simp only [invertmatrix_incl_errors, mat0R_get, mul_zero, ne_eq, OfNat.ofNat_ne_zero,
    not_false_eq_true, zero_pow, Finset.sum_const_zero, Real.sqrt_zero]
  rfl

theorem matIdR_toC_mul (M : Mat2 ℂ) : (Mat2.inv2 matIdR).toC.mul M = M := by
  rw [inv2_matIdR]
  cases M
  simp [Mat2.mul, Mat2.toC, Mat2.map, matIdR]

/-- C6 (confirmed): `remove_distortion` raises the `MTpyError_Z` tensor error
on every singular 2x2 distortion matrix; called with the identity matrix and no
distortion error (on an instance holding a tensor and a matching nonnegative
error array) it returns the original tensor and the original tensor error
unchanged. -/
theorem C6_remove_distortion (s : ZState) (zs : List (Mat2 ℂ)) (zes : List (Mat2 ℝ))
    (hz : s.z = some zs) (he : s.z_err = some zes) (hlen : zes.length = zs.length)
    (hnn : ∀ i, i < zes.length → ∀ ii jj : Fin 2, 0 ≤ (zes.getD i mat0R).get ii jj) :
    (∀ (D : Mat2 ℝ) (Derr : Option (Mat2 ℝ)), Mat2.det2 D = 0 →
        removeDistortion s D Derr = .error .mtpyErrorZ)
    ∧ removeDistortion s matIdR none = .ok (matIdR, zs, zes) := by
  constructor
  · intro D Derr h
    simp only [removeDistortion]
    rw [if_pos h]
  · obtain ⟨z, ze, fr, rot, r1, r2, p1, p2⟩ := s
    have hz' : z = some zs := hz
    have he' : ze = some zes := he
    subst hz' he'
    simp only [removeDistortion]
    rw [if_neg (by norm_num [Mat2.det2, matIdR])]
    rw [if_neg (by omega)]
    have hzc : zs.map (fun M => (Mat2.inv2 matIdR).toC.mul M) = zs := by
      conv_rhs => rw [← List.map_id zs]
      apply List.map_congr_left
      intro M _
      rw [matIdR_toC_mul]
      rfl
    have hzcErr : ((List.range zes.length).map fun i =>
        if i < zs.length then
          Mat2.ofFn fun ii jj =>
            Complex.abs ((((invertmatrix_incl_errors matIdR (Option.getD none mat0R)).2.get ii 0 : ℝ) : ℂ)
                * ((zs.getD i mat0C).get 0 jj)) +
            |(Mat2.inv2 matIdR).get ii 0 * ((zes.getD i mat0R).get 0 jj)| +
            Complex.abs ((((invertmatrix_incl_errors matIdR (Option.getD none mat0R)).2.get ii 1 : ℝ) : ℂ)
                * ((zs.getD i mat0C).get 1 jj)) +
            |(Mat2.inv2 matIdR).get ii 1 * ((zes.getD i mat0R).get 1 jj)|
        else mat0R) = zes := by
      apply List.ext_getElem
      · simp
      · intro i h1 h2
        rw [List.getElem_map, List.getElem_range]
        have hi : i < zes.length := by simpa using h1
        rw [if_pos (by omega)]
        apply Mat2.eq_of_get
        intro ii jj
        rw [Mat2.get_ofFn]
        have hgd : zes.getD i mat0R = zes[i] := by
          rw [List.getD_eq_getElem?_getD, List.getElem?_eq_getElem hi]
          rfl
        have hnn2 : ∀ ii jj : Fin 2, 0 ≤ zes[i].get ii jj :=
          fun ii jj => hgd ▸ hnn i hi ii jj
        rw [show ((invertmatrix_incl_errors matIdR (Option.getD none mat0R)).2 : Mat2 ℝ)
            = mat0R from invertErr_matIdR_zero, inv2_matIdR, hgd]
        fin_cases ii <;> fin_cases jj <;> norm_num [mat0R, matIdR, Mat2.get] <;>
          first
            | exact hnn2 0 0
            | exact hnn2 0 1
            | exact hnn2 1 0
            | exact hnn2 1 1
    rw [hzc, hzcErr]

end Mtpy

namespace Mtpy

theorem C6_remove_distortion_witness :
    removeDistortion (mkZ (some (.multi [matAllI])) (some (.multi [matAll1R])) (some [(1 : ℝ)]))
        (⟨1, 2, 2, 4⟩ : Mat2 ℝ) none = .error .mtpyErrorZ
    ∧ removeDistortion (mkZ (some (.multi [matAllI])) (some (.multi [matAll1R])) (some [(1 : ℝ)]))
        matIdR none = .ok (matIdR, [matAllI], [matAll1R]) :=
  ⟨(C6_remove_distortion
      (mkZ (some (.multi [matAllI])) (some (.multi [matAll1R])) (some [(1 : ℝ)]))
      [matAllI] [matAll1R]
      (mkZ_z (.multi [matAllI]) (some (.multi [matAll1R])) (some [(1 : ℝ)]))
      (mkZ_z_err (.multi [matAllI]) (some (.multi [matAll1R])) (some [(1 : ℝ)]))
      rfl
      (by intro i hi ii jj
          have h0 : i = 0 := by simp at hi; omega
          subst h0
          fin_cases ii <;> fin_cases jj <;> norm_num [matAll1R, Mat2.get, List.getD])).1
    (⟨1, 2, 2, 4⟩ : Mat2 ℝ) none (by norm_num [Mat2.det2]),
   (C6_remove_distortion
      (mkZ (some (.multi [matAllI])) (some (.multi [matAll1R])) (some [(1 : ℝ)]))
      [matAllI] [matAll1R]
      (mkZ_z (.multi [matAllI]) (some (.multi [matAll1R])) (some [(1 : ℝ)]))
      (mkZ_z_err (.multi [matAllI]) (some (.multi [matAll1R])) (some [(1 : ℝ)]))
      rfl
      (by intro i hi ii jj
          have h0 : i = 0 := by simp at hi; omega
          subst h0
          fin_cases ii <;> fin_cases jj <;> norm_num [matAll1R, Mat2.get, List.getD])).2⟩

end Mtpy

namespace Mtpy

/-- C7 (corrected) — counterexample: supplying the per-index factor SEQUENCE
`[4, 9]` (length 2 = N) makes `remove_ss` hit
`np.repeat(x_factor, len(reduce_res_factor_x))` with the local `x_factor`
unbound: an uncaught NameError, so no static-shift/corrected pair is returned
at all, let alone one reconstructing the tensor. -/
theorem C7_counterexample :
    removeSS (mkZ (some (.multi [matAllI, matAllI])) none (some [(1 : ℝ), 1]))
        (.arr [4, 9]) (.scalar 1) = .error .nameError
    ∧ ¬ ssReconstructs (removeSS (mkZ (some (.multi [matAllI, matAllI])) none
        (some [(1 : ℝ), 1])) (.arr [4, 9]) (.scalar 1)) [matAllI, matAllI] := by
  have h : removeSS (mkZ (some (.multi [matAllI, matAllI])) none (some [(1 : ℝ), 1]))
      (.arr [4, 9]) (.scalar 1) = .error .nameError := rfl
  refine ⟨h, ?_⟩
  rintro ⟨p, hp, -⟩
  rw [h] at hp
  cases hp

/-- C7 (amended): for SCALAR (or equivalently length-1) positive factors the
claim holds: `remove_ss` mutates nothing (the method assigns no attribute of
`self`) and left-multiplying each returned corrected slice by the returned
static-shift matrix `diag(sqrt(fx), sqrt(fy))` reconstructs the original
tensor exactly.  A factor sequence of any length other than 1 instead raises
an uncaught NameError (unbound `x_factor`) and returns nothing. -/
theorem C7_remove_ss_scalar (s : ZState) (zs : List (Mat2 ℂ)) (x y : ℝ)
    (hz : s.z = some zs) (hx : 0 < x) (hy : 0 < y) :
    ssReconstructs (removeSS s (.scalar x) (.scalar y)) zs
    ∧ removeSS s (.arr [x]) (.arr [y]) = removeSS s (.scalar x) (.scalar y) := by
  obtain ⟨z, ze, fr, rot, r1, r2, p1, p2⟩ := s
  have hz' : z = some zs := hz
  subst hz'
  refine ⟨⟨_, rfl, ?_, ?_, ?_⟩, rfl⟩
  · simp
  · simp
  intro i hi
  have hsx : ((Real.sqrt x : ℝ) : ℂ) ≠ 0 := by
    rw [Complex.ofReal_ne_zero]
    exact Real.sqrt_ne_zero'.mpr hx
  have hsy : ((Real.sqrt y : ℝ) : ℂ) ≠ 0 := by
    rw [Complex.ofReal_ne_zero]
    exact Real.sqrt_ne_zero'.mpr hy
  rw [getD_map_lt _ _ hi _ mat0C, getD_map_lt _ _ hi _ mat0C]
  generalize zs.getD i mat0C = M
  obtain ⟨a, b, c, d⟩ := M
  simp only [Mat2.mul, Mat2.toC, Mat2.map, Complex.ofReal_zero, zero_mul, add_zero, zero_add,
    Mat2.mk.injEq]
  refine ⟨?_, ?_, ?_, ?_⟩ <;> field_simp

theorem C7_remove_ss_scalar_witness :
    ssReconstructs (removeSS (mkZ (some (.multi [matAllI])) none (some [(1 : ℝ)]))
        (.scalar 4) (.scalar 9)) [matAllI]
    ∧ removeSS (mkZ (some (.multi [matAllI])) none (some [(1 : ℝ)])) (.arr [4]) (.arr [9])
      = removeSS (mkZ (some (.multi [matAllI])) none (some [(1 : ℝ)]))
          (.scalar 4) (.scalar 9) :=
  ⟨(C7_remove_ss_scalar (mkZ (some (.multi [matAllI])) none (some [(1 : ℝ)])) [matAllI] 4 9
      (mkZ_z (.multi [matAllI]) none (some [(1 : ℝ)])) (by norm_num) (by norm_num)).1,
   (C7_remove_ss_scalar (mkZ (some (.multi [matAllI])) none (some [(1 : ℝ)])) [matAllI] 4 9
      (mkZ_z (.multi [matAllI]) none (some [(1 : ℝ)])) (by norm_num) (by norm_num)).2⟩

end Mtpy

namespace Mtpy

/-- C8 (code_bug) — evaluation at the failing input: for the tensor
`[[0, 1+1j], [-1-1j, 0]]` the `only1d` property returns ZERO off-diagonal
entries, because the code multiplies `np.sign(entry)` by the COMPLEX mean
`0.5 * (z[1,0] + z[0,1])`, which cancels here — although its own docstring
(and the claim) promise off-diagonals keeping their signs with magnitude the
mean of the two original absolutes, `(|1+1j| + |-1-1j|) / 2 = sqrt 2 ≠ 0`.
`only2d` zeroes only the diagonal, as claimed, and both operate on copies. -/
theorem C8_only1d_eval :
    zOnly1d [zScenMat] = [(⟨0, 0, 0, 0⟩ : Mat2 ℂ)]
    ∧ zOnly2d [zScenMat] = [(⟨0, 1 + Complex.I, -1 - Complex.I, 0⟩ : Mat2 ℂ)]
    ∧ (Complex.abs zScenMat.xy + Complex.abs zScenMat.yx) / 2 ≠ 0 := by
  have hmean : (0.5 : ℂ) * ((-1 - Complex.I) + (1 + Complex.I)) = 0 := by ring
  refine ⟨?_, ?_, ?_⟩
  · simp [zOnly1d, zScenMat, hmean]
  · simp [zOnly2d, zScenMat]
  · have h1 : zScenMat.xy ≠ 0 := by
      show (1 + Complex.I) ≠ 0
      intro h
      have h2 := congrArg Complex.re h
      simp at h2
    have hpos : 0 < Complex.abs zScenMat.xy := AbsoluteValue.pos Complex.abs h1
    have hlt : 0 < (Complex.abs zScenMat.xy + Complex.abs zScenMat.yx) / 2 :=
      div_pos (lt_of_lt_of_le hpos (le_add_of_nonneg_right (AbsoluteValue.nonneg _ _)))
        two_pos
    exact ne_of_gt hlt

/-- `_compute_amp_phase` does not touch the induction-arrow attributes. -/
theorem computeAmpPhase_angle_real (s : TipperState) :
    (computeAmpPhase s).angle_real = s.angle_real := by
  unfold computeAmpPhase
  cases ht : s.tipper <;> cases he : s.tipper_err <;> simp [ht, he]

theorem atan2_scen : atan2 (-(0.2 : ℝ)) (-(0.1 : ℝ)) = Real.arctan 2 - Real.pi := by
  unfold atan2
  rw [Complex.arg_of_re_neg_of_im_neg (by norm_num) (by norm_num)]
  have habs : Complex.abs ⟨-(0.1 : ℝ), -(0.2 : ℝ)⟩ = Real.sqrt 0.05 := by
    rw [Complex.abs_apply, Complex.normSq_mk]
    norm_num
  have h5 : Real.sqrt (0.05 : ℝ) = Real.sqrt 5 / 10 := by
    rw [show (0.05 : ℝ) = (Real.sqrt 5 / 10) ^ 2 by
        rw [div_pow, Real.sq_sqrt] <;> norm_num,
      Real.sqrt_sq (by positivity)]
  have hs5 : Real.sqrt 5 ≠ 0 := by positivity
  rw [habs, h5, Real.arctan_eq_arcsin]
  have him : (-(⟨-(0.1 : ℝ), -(0.2 : ℝ)⟩ : ℂ)).im = (0.2 : ℝ) := by simp
  have harg : (0.2 : ℝ) / (Real.sqrt 5 / 10) = 2 / Real.sqrt ((1 : ℝ) + 2 ^ 2) := by
    rw [show ((1 : ℝ) + 2 ^ 2) = 5 by norm_num]
    field_simp
    ring
  rw [him, harg]

/-- C9 (corrected) — counterexample: the constructed
`Tipper(tipper_array=[[[0.1, 0.2]]], freq=[1])` has `angle_real = None`:
unlike `Z.__init__`, the Tipper constructor performs NO derived-quantity
computation, so the claimed atan2-based value is not there. -/
theorem C9_counterexample :
    tScen.angle_real = none
    ∧ tScen.angle_real ≠ some [degrees (Real.arctan 2 - Real.pi)] := by
  refine ⟨rfl, ?_⟩
  rw [show tScen.angle_real = none from rfl]
  simp

/-- C9 (amended): the CONSTRUCTOR leaves `angle_real` as `None`; only once
`_compute_mag_direction` runs (e.g. by assigning the array through the
`tipper` property setter) does `angle_real` hold
`degrees(atan2(-Re Ty, -Re Tx))` at every index — for the scenario tipper
`[0.1+0j, 0.2+0j]` that value is `degrees(atan2(-0.2, -0.1))
= degrees(arctan 2 - pi)`, the Parkinson sign-flip convention. -/
theorem C9_tipper_angle (s : TipperState) (ts : List (Vec2 ℂ)) (hts : s.tipper = some ts) :
    (computeMagDirection s).angle_real
      = some (ts.map fun v => degrees (atan2 (-v.ty.re) (-v.tx.re)))
    ∧ (setTipper tScen [tScenVec]).angle_real
      = some [degrees (Real.arctan 2 - Real.pi)] := by
  constructor
  · obtain ⟨t, te, fr, rot, a1, a2, p1, p2, m1, m2, g1, g2, m3, g3⟩ := s
    have ht' : t = some ts := hts
    subst ht'
    unfold computeMagDirection
    cases te <;> rfl
  · rw [show setTipper tScen [tScenVec]
        = computeAmpPhase (computeMagDirection
            ⟨some [tScenVec], none, some [(1 : ℝ)], .arr (List.replicate 1 0),
             none, none, none, none, none, none, none, none, none, none⟩) from rfl,
      computeAmpPhase_angle_real]
    unfold computeMagDirection
    simp only [tScenVec, Complex.ofReal_re, List.map]
    rw [atan2_scen]

theorem C9_tipper_angle_witness :
    (computeMagDirection tScen).angle_real
      = some ([tScenVec].map fun v => degrees (atan2 (-v.ty.re) (-v.tx.re)))
    ∧ (setTipper tScen [tScenVec]).angle_real
      = some [degrees (Real.arctan 2 - Real.pi)] :=
  C9_tipper_angle tScen [tScenVec] rfl

end Mtpy

namespace FreqAlias

/-- C10 (confirmed): `Z._get_freq` returns `np.array(self._freq)` — a FRESH
copy.  The returned reference is a new cell (distinct from the stored one)
holding equal contents; writing through the returned reference leaves the
stored frequency array unchanged; and a second read returns contents equal to
the first read's. -/
theorem C10_freq_getter_copies (o : ZObj) (h : Heap) (r : ℕ)
    (hr : o.freqRef = some r) (hlt : r < h.cells.length) :
    (getFreq o h).1 = some h.cells.length
    ∧ h.cells.length ≠ r
    ∧ readArr (getFreq o h).2 h.cells.length = readArr h r
    ∧ (∀ v, readArr (writeArr (getFreq o h).2 h.cells.length v) r = readArr h r)
    ∧ readArr (getFreq o (getFreq o h).2).2 ((getFreq o h).2.cells.length)
        = readArr (getFreq o h).2 h.cells.length := by
  obtain ⟨fr⟩ := o
  have hfr : fr = some r := hr
  subst hfr
  obtain ⟨cells⟩ := h
  have hlt2 : r < cells.length := hlt
  refine ⟨rfl, fun hcon => by omega, ?_, ?_, ?_⟩
  · show (cells ++ [readArr ⟨cells⟩ r]).getD cells.length [] = readArr ⟨cells⟩ r
    rw [List.getD_eq_getElem?_getD, List.getElem?_concat_length]
    rfl
  · intro v
    show ((cells ++ [readArr ⟨cells⟩ r]).set cells.length v).getD r [] = readArr ⟨cells⟩ r
    rw [List.getD_eq_getElem?_getD, List.getElem?_set_ne (by omega),
      List.getElem?_append_left hlt2]
    show cells[r]?.getD [] = cells.getD r []
    exact (List.getD_eq_getElem?_getD cells r []).symm
  · show ((cells ++ [readArr ⟨cells⟩ r]) ++
        [readArr ⟨cells ++ [readArr ⟨cells⟩ r]⟩ r]).getD (cells ++ [readArr ⟨cells⟩ r]).length []
      = (cells ++ [readArr ⟨cells⟩ r]).getD cells.length []
    rw [List.getD_eq_getElem?_getD, List.getElem?_concat_length,
      List.getD_eq_getElem?_getD, List.getElem?_concat_length]
    show (cells ++ [readArr ⟨cells⟩ r]).getD r [] = _
    rw [List.getD_eq_getElem?_getD, List.getElem?_append_left hlt2, Option.getD_some]
    show cells[r]?.getD [] = cells.getD r []
    exact (List.getD_eq_getElem?_getD cells r []).symm

theorem C10_freq_getter_copies_witness :
    (getFreq ⟨some 0⟩ ⟨[[1, 2]]⟩).1 = some ([[(1 : ℝ), 2]] : List (List ℝ)).length
    ∧ ([[(1 : ℝ), 2]] : List (List ℝ)).length ≠ 0
    ∧ readArr (getFreq ⟨some 0⟩ ⟨[[1, 2]]⟩).2 ([[(1 : ℝ), 2]] : List (List ℝ)).length
        = readArr ⟨[[1, 2]]⟩ 0
    ∧ readArr (writeArr (getFreq ⟨some 0⟩ ⟨[[1, 2]]⟩).2
        ([[(1 : ℝ), 2]] : List (List ℝ)).length [5, 6]) 0 = readArr ⟨[[1, 2]]⟩ 0
    ∧ readArr (getFreq ⟨some 0⟩ (getFreq ⟨some 0⟩ ⟨[[1, 2]]⟩).2).2
        ((getFreq ⟨some 0⟩ ⟨[[1, 2]]⟩).2.cells.length)
      = readArr (getFreq ⟨some 0⟩ ⟨[[1, 2]]⟩).2 ([[(1 : ℝ), 2]] : List (List ℝ)).length := by
  have hmain := C10_freq_getter_copies ⟨some 0⟩ ⟨[[1, 2]]⟩ 0 rfl (by norm_num)
  exact ⟨hmain.1, hmain.2.1, hmain.2.2.1, hmain.2.2.2.1 [5, 6], hmain.2.2.2.2⟩

end FreqAlias
